import Mathlib

/-!
Verification development for the Yourdio retro lo-fi algorithmic composer
(`yourdio.py`).  The composition engine is shallowly embedded over exact
rationals: Python floats become `ℚ`, Python ints become `ℤ`/`ℕ`, and every
Python operation that can raise (`%` or `/` by zero, indexing an empty list)
is modelled in an `Except` monad carrying the failing-operation kind.
Unbounded `while` loops are modelled with an explicit fuel parameter; running
out of fuel is a distinguished error, so a terminating run of the Python code
corresponds to a `.ok` result for every sufficiently large fuel.
-/

namespace Yourdio

/-- Failure kinds of the Python code: each constructor names the raising
operation (modulo/indexing with an empty prime list, empty scale, empty
Fibonacci list, modulo by a zero parameter, division by zero), plus fuel
exhaustion of the loop embedding. -/
inductive GenErr where
  | emptyPrimes
  | emptyScale
  | emptyFib
  | zeroMod
  | zeroDiv
  | fuelOut
deriving DecidableEq, Repr

/-- Result monad of the embedding. -/
abbrev Exc (α : Type) : Type := Except GenErr α

/-- Python `int(x)` on a real value: truncation toward zero (for negative
values, `-⌊-q⌋ = ⌈q⌉`). -/
def pyTrunc (q : ℚ) : ℤ := if 0 ≤ q then ⌊q⌋ else -⌊-q⌋

/-- `np.clip(x, lo, hi)` for `lo ≤ hi`. -/
def ratClip (q lo hi : ℚ) : ℚ := min (max q lo) hi

/-- Python `a % b` on integers (`Int.fmod` has Python's floor-modulo
semantics); raises when `b = 0`. -/
def pyMod (e : GenErr) (a b : ℤ) : Exc ℤ :=
  if b = 0 then .error e else .ok (Int.fmod a b)

/-- Python `a % b` used as a list index, with `b` a list length. -/
def pyModIdx (e : GenErr) (a : ℤ) (b : ℕ) : Exc ℕ :=
  if b = 0 then .error e else .ok (Int.fmod a (b : ℤ)).toNat

/-- Python true division on floats; raises when the denominator is zero. -/
def pyDiv (e : GenErr) (a b : ℚ) : Exc ℚ :=
  if b = 0 then .error e else .ok (a / b)

/-- Python `l[i]` for an index already known to be in range: raises
(modelled by the given error) only when the list is empty or the index is
out of range. -/
def pyIndex {α : Type} (e : GenErr) (l : List α) (i : ℕ) : Exc α :=
  match l.get? i with
  | some v => .ok v
  | none => .error e

/-- Python `l[i % len(l)]` (cyclic indexing): `i % 0` raises on an empty
list. -/
def pyCyc {α : Type} (e : GenErr) (l : List α) (i : ℕ) : Exc α :=
  pyIndex e l (i % l.length)

/-- A note event, as passed to `midi.addNote(track, channel, pitch, time,
duration, volume)`; the code always passes `channel = track`. -/
structure NoteEv where
  track : ℕ
  pitch : ℤ
  time : ℚ
  dur : ℚ
  vel : ℤ
deriving DecidableEq, Repr

/-- A controller event (`midi.addControllerEvent`). -/
structure CCEv where
  track : ℕ
  time : ℚ
  cc : ℕ
  value : ℤ
deriving DecidableEq, Repr

/-- A pitch-wheel event (`midi.addPitchWheelEvent`). -/
structure BendEv where
  track : ℕ
  time : ℚ
  value : ℤ
deriving DecidableEq, Repr

/-- One emission to the MIDI sink. -/
inductive Event where
  | note (n : NoteEv)
  | cc (c : CCEv)
  | bend (b : BendEv)
deriving DecidableEq, Repr

/-- The Active-Note Set `self.active_notes`: `(end_time, pitch, channel)`
tuples in insertion order. -/
abbrev ActiveState := List (ℚ × ℤ × ℕ)

/-- The Composer's derived configuration fields, as extracted by
`RetroMIDIComposer.__init__` from the theme mapping (each field holds the
configured value, the code's fallback default being used when the theme
omits it; see `defaultComposer`). -/
structure Composer where
  tempo : ℤ
  harmonyIntervals : List ℤ
  harmonyVariation : Bool
  harmonyVariationIntervals : List ℤ
  harmonyVariationMod : ℤ
  scale : List ℤ
  hbBaseDuration : ℚ
  hbPrimeModFactor : ℤ
  hbBaseVelocity : ℤ
  hbPrimeModRange : ℤ
  melBaseVelocity : ℤ
  melPrimeModRange : ℤ
  melSequenceLength : ℤ
  melBaseUnit : ℚ
  droneDurationMultiplier : ℚ
  droneCCEventInterval : ℚ
  droneVelocity : ℤ
  eventsThreshold : ℚ
  eventsCount : ℕ
  motifPattern : List ℤ
  motifIntervalMinutes : ℚ
  motifRegisterMod : ℤ
  motifOrnamentMod : ℤ
  logisticR : ℚ
  lorenzSigma : ℚ
  lorenzRho : ℚ
  lorenzBeta : ℚ
  maxPolyphony : ℕ
deriving DecidableEq

/-- `_build_scale(mode, custom_scale)`: a custom scale is used verbatim,
otherwise one of the three built-in scales keyed by the mode tag, with
`D_dorian` as the fallback for unrecognized tags. -/
def buildScale (mode : String) (customScale : Option (List ℤ)) : List ℤ :=
  match customScale with
  | some s => s
  | none =>
    if mode = "D_dorian" then [62, 64, 65, 67, 69, 71, 72, 74]
    else if mode = "A_aeolian" then [69, 71, 72, 74, 76, 77, 79, 81]
    else if mode = "E_phrygian" then [64, 65, 67, 69, 71, 72, 74, 76]
    else [62, 64, 65, 67, 69, 71, 72, 74]

/-- The Composer produced from the built-in default theme (all fields at the
code's fallback values). -/
def defaultComposer : Composer where
  tempo := 58
  harmonyIntervals := [0, 3, 6]
  harmonyVariation := false
  harmonyVariationIntervals := [0, 2, 4]
  harmonyVariationMod := 3
  scale := buildScale "D_dorian" none
  hbBaseDuration := 32
  hbPrimeModFactor := 8
  hbBaseVelocity := 45
  hbPrimeModRange := 20
  melBaseVelocity := 55
  melPrimeModRange := 25
  melSequenceLength := 8
  melBaseUnit := 1/4
  droneDurationMultiplier := 4
  droneCCEventInterval := 4
  droneVelocity := 50
  eventsThreshold := 87/100
  eventsCount := 64
  motifPattern := [0, 2, 5, 7]
  motifIntervalMinutes := 17
  motifRegisterMod := 2
  motifOrnamentMod := 5
  logisticR := 193/50
  lorenzSigma := 10
  lorenzRho := 28
  lorenzBeta := 8/3
  maxPolyphony := 32

/-- `_fibonacci_sequence` helper: the list `[a, b, a+b, ...]` of length `k`. -/
def fibFrom (a b : ℕ) : ℕ → List ℕ
  | 0 => []
  | k + 1 => a :: fibFrom b (a + b) k

/-- `_fibonacci_sequence(n)`. -/
def fibonacciSequence (n : ℤ) : List ℕ :=
  if n ≤ 0 then []
  else if n = 1 then [1]
  else fibFrom 1 1 n.toNat

/-- `_lorenz_step`: one explicit-Euler step of the Lorenz system with the
configured coefficients; `dt` defaults to `0.01` and callers never override
it. -/
def lorenzStep (sigma rho beta x y z : ℚ) : ℚ × ℚ × ℚ :=
  let dt : ℚ := 1/100
  (x + sigma * (y - x) * dt,
   y + (x * (rho - z) - y) * dt,
   z + (x * y - beta * z) * dt)

/-- `n` iterated Lorenz steps. -/
def lorenzIter (sigma rho beta : ℚ) : ℕ → ℚ × ℚ × ℚ → ℚ × ℚ × ℚ
  | 0, st => st
  | n + 1, st => lorenzIter sigma rho beta n (lorenzStep sigma rho beta st.1 st.2.1 st.2.2)

/-- `_enforce_polyphony_limit`'s pruning step: keep the active notes whose
end time is strictly later than the submitted onset. -/
def pruneActive (active : ActiveState) (time : ℚ) : ActiveState :=
  active.filter (fun e => time < e.1)

/-- `_enforce_polyphony_limit`: returns the new Active-Note Set together
with the note event written to the sink (`none` when the note was
dropped). -/
def enforcePolyphonyLimit (maxPoly : ℕ) (active : ActiveState) (track : ℕ)
    (time : ℚ) (pitch : ℤ) (dur : ℚ) (vel : ℤ) : ActiveState × Option NoteEv :=
  let pruned := pruneActive active time
  if pruned.length < maxPoly then
    (pruned ++ [(time + dur, pitch, track)], some ⟨track, pitch, time, dur, vel⟩)
  else if pruned.isEmpty then
    (pruned, none)
  else
    (pruned.tail ++ [(time + dur, pitch, track)], some ⟨track, pitch, time, dur, vel⟩)

/-- One submission request to the Polyphony Manager. -/
structure Submission where
  track : ℕ
  time : ℚ
  pitch : ℤ
  dur : ℚ
  vel : ℤ
deriving DecidableEq, Repr

/-- Feed a sequence of submissions through `_enforce_polyphony_limit`,
collecting the note events actually written. -/
def submitAll (maxPoly : ℕ) : ActiveState → List Submission → ActiveState × List NoteEv
  | act, [] => (act, [])
  | act, s :: rest =>
    let step := enforcePolyphonyLimit maxPoly act s.track s.time s.pitch s.dur s.vel
    let next := submitAll maxPoly step.1 rest
    (next.1, step.2.toList ++ next.2)

/-- `_build_chord`'s inner loop: one note per interval, each note being
`scale[(root_idx + interval) % len(scale)] + octave_shift`. -/
def buildChordNotes (scale : List ℤ) (rootIdx : ℤ) (shift : ℤ) : List ℤ → Exc (List ℤ)
  | [] => .ok []
  | interval :: rest => do
    let idx ← pyModIdx .emptyScale (rootIdx + interval) scale.length
    let note ← pyIndex .emptyScale scale idx
    let others ← buildChordNotes scale rootIdx shift rest
    .ok ((note + shift) :: others)

/-- `_build_chord(root_idx, prime)`: picks the variation interval set when a
variation is configured and `prime % variation_chance_mod == 0` (the modulo
is only evaluated when a variation is configured, mirroring Python's
short-circuit `and`), then shifts the chord down an octave for even
primes. -/
def buildChord (c : Composer) (rootIdx : ℤ) (prime : ℤ) : Exc (List ℤ) := do
  let intervals ←
    if c.harmonyVariation then do
      let m ← pyMod .zeroMod prime c.harmonyVariationMod
      pure (if m = 0 then c.harmonyVariationIntervals else c.harmonyIntervals)
    else pure c.harmonyIntervals
  let octaveShift : ℤ := if Int.fmod prime 2 = 0 then -12 else 0
  buildChordNotes c.scale rootIdx octaveShift intervals

/-- The `while current_beat < beats_total` loop of `_generate_harmonic_bed`,
with explicit fuel. -/
def harmonicBedLoop (c : Composer) (track : ℕ) (primes : List ℤ) (beatsTotal : ℤ) :
    ℕ → ℚ → ℕ → Exc (List Event)
  | 0, currentBeat, _ =>
    if currentBeat < (beatsTotal : ℚ) then .error .fuelOut else .ok []
  | fuel + 1, currentBeat, primeIdx =>
    if currentBeat < (beatsTotal : ℚ) then do
      let prime ← pyCyc .emptyPrimes primes primeIdx
      let pm ← pyMod .zeroMod prime c.hbPrimeModFactor
      let chordLength : ℚ := c.hbBaseDuration + (pm : ℚ)
      let rootIdx ← pyModIdx .emptyScale ((primeIdx : ℤ) * 2) c.scale.length
      let prime2 ← pyCyc .emptyPrimes primes primeIdx
      let chordNotes ← buildChord c (rootIdx : ℤ) prime2
      let vm ← pyMod .zeroMod prime c.hbPrimeModRange
      let velocity : ℤ := c.hbBaseVelocity + vm
      let these := chordNotes.map fun note =>
        Event.note ⟨track, note, currentBeat, chordLength * (19/20), velocity⟩
      let rest ← harmonicBedLoop c track primes beatsTotal fuel (currentBeat + chordLength) (primeIdx + 1)
      .ok (these ++ rest)
    else .ok []

/-- `_generate_harmonic_bed(midi, track, duration, primes)`. -/
def generateHarmonicBed (c : Composer) (track : ℕ) (duration : ℚ) (primes : List ℤ)
    (fuel : ℕ) : Exc (List Event) :=
  harmonicBedLoop c track primes (pyTrunc (duration * (c.tempo : ℚ))) fuel 0 0

/-- The `for i, degree in enumerate(core_motif)` loop of
`_generate_melodic_texture`.  `rand` is the stream of draws of
`np.random.random()` and `ridx` counts the draws made so far; one draw is
consumed per motif note (the ornament check), matching the code. -/
def melodicInnerLoop (c : Composer) (track : ℕ) (rand : ℕ → ℚ) (currentBeat : ℚ)
    (prime registerShift : ℤ) (ornamentDensity : ℚ) (fibDurations : List ℕ) :
    List ℤ → ℕ → ActiveState → ℕ → Exc (List Event × ActiveState × ℕ)
  | [], _, act, ridx => .ok ([], act, ridx)
  | degree :: rest, i, act, ridx => do
    let noteIdx ← pyModIdx .emptyScale degree c.scale.length
    let base ← pyIndex .emptyScale c.scale noteIdx
    let pitch := base + registerShift
    let noteTime : ℚ := currentBeat + ((i : ℚ) * 2) + (Int.fmod prime 3 : ℚ) * (1/10)
    let fibVal ← pyCyc .emptyFib fibDurations i
    let durationBeats : ℚ := (fibVal : ℚ) * c.melBaseUnit + 1
    let vm ← pyMod .zeroMod prime c.melPrimeModRange
    let velocity : ℤ := c.melBaseVelocity + vm
    let step1 := enforcePolyphonyLimit c.maxPolyphony act track noteTime pitch durationBeats velocity
    if rand ridx < ornamentDensity then do
      let ornIdx ← pyModIdx .emptyScale ((noteIdx : ℤ) + 1) c.scale.length
      let ornBase ← pyIndex .emptyScale c.scale ornIdx
      let ornPitch := ornBase + registerShift
      let step2 := enforcePolyphonyLimit c.maxPolyphony step1.1 track (noteTime + 1/2) ornPitch (1/2) (velocity - 10)
      let restRes ← melodicInnerLoop c track rand currentBeat prime registerShift
        ornamentDensity fibDurations rest (i + 1) step2.1 (ridx + 1)
      .ok ((step1.2.toList.map Event.note) ++ (step2.2.toList.map Event.note) ++ restRes.1,
           restRes.2.1, restRes.2.2)
    else do
      let restRes ← melodicInnerLoop c track rand currentBeat prime registerShift
        ornamentDensity fibDurations rest (i + 1) step1.1 (ridx + 1)
      .ok ((step1.2.toList.map Event.note) ++ restRes.1, restRes.2.1, restRes.2.2)

/-- The `while current_beat < beats_total` loop of
`_generate_melodic_texture`, with explicit fuel. -/
def melodicLoop (c : Composer) (track : ℕ) (primes : List ℤ) (beatsTotal motifIntervalBeats : ℤ)
    (rand : ℕ → ℚ) : ℕ → ℚ → ℕ → ActiveState → ℕ → Exc (List Event × ActiveState × ℕ)
  | 0, currentBeat, _, act, ridx =>
    if currentBeat < (beatsTotal : ℚ) then .error .fuelOut else .ok ([], act, ridx)
  | fuel + 1, currentBeat, motifCount, act, ridx =>
    if currentBeat < (beatsTotal : ℚ) then do
      let prime ← pyCyc .emptyPrimes primes motifCount
      let rm ← pyMod .zeroMod prime c.motifRegisterMod
      let registerShift : ℤ := if rm = 0 then 12 else 0
      let om ← pyMod .zeroMod prime c.motifOrnamentMod
      let ornamentDensity : ℚ := (om : ℚ) / (c.motifOrnamentMod : ℚ)
      let fibDurations := fibonacciSequence c.melSequenceLength
      let inner ← melodicInnerLoop c track rand currentBeat prime registerShift
        ornamentDensity fibDurations c.motifPattern 0 act ridx
      let rest ← melodicLoop c track primes beatsTotal motifIntervalBeats rand fuel
        (currentBeat + (motifIntervalBeats : ℚ)) (motifCount + 1) inner.2.1 inner.2.2
      .ok (inner.1 ++ rest.1, rest.2.1, rest.2.2)
    else .ok ([], act, ridx)

/-- `_generate_melodic_texture(midi, track, duration, primes)`; returns the
emitted events, the final Active-Note Set and the number of random draws
consumed. -/
def generateMelodicTexture (c : Composer) (track : ℕ) (duration : ℚ) (primes : List ℤ)
    (act : ActiveState) (rand : ℕ → ℚ) (fuel : ℕ) : Exc (List Event × ActiveState × ℕ) :=
  melodicLoop c track primes (pyTrunc (duration * (c.tempo : ℚ)))
    (pyTrunc (c.motifIntervalMinutes * (c.tempo : ℚ))) rand fuel 0 0 act 0

/-- `int(65 + 35 * np.clip(x / 20.0, -1, 1))`: the controller-74 value
computed from the Lorenz x coordinate. -/
def droneBrightness (x : ℚ) : ℤ := pyTrunc (65 + 35 * ratClip (x / 20) (-1) 1)

/-- The `for i in range(num_cc_events)` loop of `_generate_drones`: advances
the Lorenz state once per step and emits a controller-74 event when the
event's computed time still falls inside the chapter.  Returns the final
Lorenz state and the emitted events. -/
def droneCCLoop (c : Composer) (track : ℕ) (beatsTotal : ℤ) (currentBeat : ℚ) :
    ℕ → ℚ × ℚ × ℚ → ℕ → (ℚ × ℚ × ℚ) × List Event
  | 0, st, _ => (st, [])
  | k + 1, st, i =>
    let st' := lorenzStep c.lorenzSigma c.lorenzRho c.lorenzBeta st.1 st.2.1 st.2.2
    let brightness := droneBrightness st'.1
    let ccTime : ℚ := currentBeat + (i : ℚ) * c.droneCCEventInterval
    let next := droneCCLoop c track beatsTotal currentBeat k st' (i + 1)
    if ccTime < (beatsTotal : ℚ) then
      (next.1, Event.cc ⟨track, ccTime, 74, brightness⟩ :: next.2)
    else (next.1, next.2)

/-- The `while current_beat < beats_total` loop of `_generate_drones`, with
explicit fuel; the Lorenz state persists across drones. -/
def droneLoop (c : Composer) (track : ℕ) (primes : List ℤ) (beatsTotal : ℤ) :
    ℕ → ℚ → ℕ → ℚ × ℚ × ℚ → ActiveState → Exc (List Event × ActiveState)
  | 0, currentBeat, _, _, act =>
    if currentBeat < (beatsTotal : ℚ) then .error .fuelOut else .ok ([], act)
  | fuel + 1, currentBeat, primeIdx, st, act =>
    if currentBeat < (beatsTotal : ℚ) then do
      let prime ← pyCyc .emptyPrimes primes primeIdx
      let droneLength : ℚ := (prime : ℚ) * c.droneDurationMultiplier
      let rootBase ← pyIndex .emptyScale c.scale 0
      let rootNote := rootBase - 24
      let q ← pyDiv .zeroDiv droneLength c.droneCCEventInterval
      let numCC := (pyTrunc q).toNat
      let cc := droneCCLoop c track beatsTotal currentBeat numCC st 0
      let actualDuration := min droneLength ((beatsTotal : ℚ) - currentBeat)
      let step := enforcePolyphonyLimit c.maxPolyphony act track currentBeat rootNote actualDuration c.droneVelocity
      let rest ← droneLoop c track primes beatsTotal fuel (currentBeat + droneLength) (primeIdx + 1) cc.1 step.1
      .ok (cc.2 ++ (step.2.toList.map Event.note) ++ rest.1, rest.2)
    else .ok ([], act)

/-- `_generate_drones(midi, track, duration, primes)`; the Lorenz state is
initialized to `(0.1, 0, 0)`. -/
def generateDrones (c : Composer) (track : ℕ) (duration : ℚ) (primes : List ℤ)
    (act : ActiveState) (fuel : ℕ) : Exc (List Event × ActiveState) :=
  droneLoop c track primes (pyTrunc (duration * (c.tempo : ℚ))) fuel 0 0 (1/10, 0, 0) act

/-- The `for i in range(n)` loop of `_logistic_map_events`: each iteration
whose updated `x` exceeds the threshold contributes a
`(iteration, intensity, timestamp)` triple. -/
def logisticLoop (r threshold : ℚ) (n : ℕ) : ℕ → ℚ → ℕ → Exc (List (ℕ × ℚ × ℚ))
  | 0, _, _ => .ok []
  | k + 1, x, i =>
    let x' := r * x * (1 - x)
    if threshold < x' then do
      let intensity ← pyDiv .zeroDiv (x' - threshold) (1 - threshold)
      let rest ← logisticLoop r threshold n k x' (i + 1)
      .ok ((i, intensity, (i : ℚ) / (n : ℚ)) :: rest)
    else logisticLoop r threshold n k x' (i + 1)

/-- `_logistic_map_events(seed, n, threshold)` with the configured growth
rate. -/
def logisticMapEvents (c : Composer) (seed : ℚ) (n : ℕ) (threshold : ℚ) :
    Exc (List (ℕ × ℚ × ℚ)) :=
  logisticLoop c.logisticR threshold n n seed 0

/-- `n` iterations of the logistic recurrence. -/
def logisticIterate (r : ℚ) : ℕ → ℚ → ℚ
  | 0, x => x
  | n + 1, x => logisticIterate r n (r * x * (1 - x))

/-- `_add_thunder_roll`. -/
def addThunderRoll (track : ℕ) (beat intensity : ℚ) : List Event :=
  let velocity := pyTrunc (60 + intensity * 30)
  ((List.range 8).map fun i =>
    Event.note ⟨track, 36, beat + (i : ℚ) * (1/8), 1/4, velocity⟩)
  ++ [Event.bend ⟨track, beat, -4096⟩, Event.bend ⟨track, beat + 1, 0⟩]

/-- `_add_metallic_swell`. -/
def addMetallicSwell (track : ℕ) (beat intensity : ℚ) : List Event :=
  (List.range 12).map fun i =>
    Event.note ⟨track, 84 + ((i % 5 : ℕ) : ℤ), beat + (i : ℚ) * (1/2), 2,
      pyTrunc (30 + ((i : ℚ) / 12) * intensity * 60)⟩

/-- `_add_shimmer`. -/
def addShimmer (track : ℕ) (beat intensity : ℚ) : List Event :=
  let velocity := pyTrunc (35 + intensity * 20)
  (List.range 4).map fun (i : ℕ) =>
    Event.note ⟨track, 72 + (i : ℤ) * 2, beat + (i : ℚ) * (1/4), 3/2, velocity⟩

/-- `_generate_ambient_events(midi, track, duration, chaos_seed)`. -/
def generateAmbientEvents (c : Composer) (track : ℕ) (duration : ℚ) (chaosSeed : ℚ) :
    Exc (List Event) := do
  let beatsTotal := pyTrunc (duration * (c.tempo : ℚ))
  let events ← logisticMapEvents c chaosSeed c.eventsCount c.eventsThreshold
  .ok (events.flatMap fun ev =>
    let eventBeat := ev.2.2 * (beatsTotal : ℚ)
    let intensity := ev.2.1
    if 9/10 < intensity then addThunderRoll track eventBeat intensity
    else if 7/10 < intensity then addMetallicSwell track eventBeat intensity
    else addShimmer track eventBeat intensity)

/-- `create_chapter_midi`: the four generator calls on tracks 0-3, in the
code's order, the Active-Note Set starting empty and threading from the
melodic texture into the drones.  (The per-track tempo/program-change setup
is omitted: it emits no note, controller, or pitch-bend events.) -/
def createChapterMidi (c : Composer) (duration : ℚ) (primes : List ℤ) (chaosSeed : ℚ)
    (rand : ℕ → ℚ) (fuel : ℕ) : Exc (List Event) := do
  let hb ← generateHarmonicBed c 0 duration primes fuel
  let mel ← generateMelodicTexture c 1 duration primes [] rand fuel
  let dr ← generateDrones c 2 duration primes mel.2.1 fuel
  let amb ← generateAmbientEvents c 3 duration chaosSeed
  .ok (hb ++ mel.1 ++ dr.1 ++ amb)

/-- `calculate_chapter_intensity(chapter, total_chapters, arc_config)`,
with the config fields (`type`, `min_intensity`, `max_intensity`,
`climax_chapter`) passed already resolved. -/
def calculateChapterIntensity (chapter total : ℤ) (arcType : String)
    (minVal maxVal : ℚ) (climax : ℤ) : Exc ℚ := do
  let normalized ← pyDiv .zeroDiv (chapter : ℚ) ((total : ℚ) - 1)
  let arc ←
    if arcType = "parabolic" then do
      let climaxNormalized ← pyDiv .zeroDiv (climax : ℚ) ((total : ℚ) - 1)
      pure (1 - |normalized - climaxNormalized| * 2)
    else if arcType = "slow_burn" then pure normalized
    else if arcType = "descending" then pure (1 - normalized)
    else if arcType = "flat" then pure ((1 : ℚ) / 2)
    else pure (1 - |normalized - 1/2| * 2)
  .ok (minVal + (maxVal - minVal) * ratClip arc 0 1)

/-- The events of a successful run (`[]` when the run failed). -/
def chapterEvents (r : Exc (List Event)) : List Event :=
  match r with
  | .ok l => l
  | .error _ => []

/-- The events of a successful generator run that also returns state. -/
def runEvents {α : Type} (r : Exc (List Event × α)) : List Event :=
  match r with
  | .ok p => p.1
  | .error _ => []

/-- Whether a run succeeded. -/
def isOkE {α : Type} (r : Exc α) : Bool :=
  match r with
  | .ok _ => true
  | .error _ => false

/-- Boolean check that a note event's pitch and velocity are in `[0,127]`
(non-note events pass). -/
def noteBoundsOk : Event → Bool
  | .note n => decide (0 ≤ n.pitch ∧ n.pitch ≤ 127 ∧ 0 ≤ n.vel ∧ n.vel ≤ 127)
  | _ => true

instance {α : Type} [DecidableEq α] : DecidableEq (Exc α) := fun x y =>
  match x, y with
  | .ok a, .ok b =>
    if h : a = b then isTrue (by rw [h]) else isFalse (by intro hh; cases hh; exact h rfl)
  | .error a, .error b =>
    if h : a = b then isTrue (by rw [h]) else isFalse (by intro hh; cases hh; exact h rfl)
  | .ok _, .error _ => isFalse (by intro h; cases h)
  | .error _, .ok _ => isFalse (by intro h; cases h)

/-! ### Basic lemmas about the embedding's helpers -/

theorem ok_bind {α β : Type} (a : α) (f : α → Exc β) :
    (Except.ok a >>= f) = f a := rfl

theorem pure_bind_exc {α β : Type} (a : α) (f : α → Exc β) :
    ((pure a : Exc α) >>= f) = f a := rfl

theorem error_bind {α β : Type} (e : GenErr) (f : α → Exc β) :
    ((Except.error e : Exc α) >>= f) = Except.error e := rfl

theorem pyMod_bounds {e : GenErr} {a b m : ℤ} (hb : 0 < b)
    (h : pyMod e a b = .ok m) : 0 ≤ m ∧ m < b := by
  unfold pyMod at h
  rw [if_neg (by omega)] at h
  cases h
  rw [Int.fmod_eq_emod a (le_of_lt hb)]
  exact ⟨Int.emod_nonneg a (by omega), Int.emod_lt_of_pos a hb⟩

theorem pyIndex_mem {α : Type} {e : GenErr} {l : List α} {i : ℕ} {v : α}
    (h : pyIndex e l i = .ok v) : v ∈ l := by
  unfold pyIndex at h
  cases hg : l.get? i with
  | none => rw [hg] at h; cases h
  | some w =>
    rw [hg] at h
    cases h
    exact List.get?_mem hg

theorem pyCyc_mem {α : Type} {e : GenErr} {l : List α} {i : ℕ} {v : α}
    (h : pyCyc e l i = .ok v) : v ∈ l := pyIndex_mem h

theorem pyCyc_ne_error {α : Type} (e : GenErr) (l : List α) (i : ℕ) (hl : l ≠ []) :
    ∀ e', pyCyc e l i = .error e' → False := by
  intro e' h
  unfold pyCyc pyIndex at h
  cases hg : l.get? (i % l.length) with
  | none =>
    rw [List.get?_eq_none] at hg
    have hlen : 0 < l.length := List.length_pos.mpr hl
    have := Nat.mod_lt i hlen
    omega
  | some w => rw [hg] at h; cases h

/-! ### C8: the Lorenz step -/

/-- C8 (confirmed): the Lorenz step is a pure function of the state and the
coefficients, computing the explicit-Euler update with `dt = 0.01`; at
`sigma=10, rho=28, beta=8/3` and state `(0.1, 0, 0)` a single step gives
exactly `(0.09, 0.028, 0)`. -/
theorem C8_lorenz_step :
    (∀ sigma rho beta x y z : ℚ,
      lorenzStep sigma rho beta x y z =
        (x + sigma * (y - x) * (1/100),
         y + (x * (rho - z) - y) * (1/100),
         z + (x * y - beta * z) * (1/100))) ∧
    lorenzStep 10 28 (8/3) (1/10) 0 0 = (9/100, 28/1000, 0) := by
  constructor
  · intro sigma rho beta x y z
    rfl
  · unfold lorenzStep
    norm_num

/-! ### C5: scale construction -/

/-- C5 (counterexample): a Composer constructed with the custom scale `[]`
is accepted (`_build_scale` returns the custom scale verbatim) yet its
scale has zero entries, contradicting the claim that every constructible
Composer has a non-empty scale. -/
theorem C5_counterexample : ¬ 1 ≤ (buildScale "D_dorian" (some [])).length := by
  decide

/-- C5 (amended): a supplied custom scale is used verbatim — so the scale
is empty exactly when an empty custom scale is supplied — and when no
custom scale is supplied every modal-center tag (recognized or not) yields
a built-in scale with 8 ≥ 1 entries. -/
theorem C5_amended_scale :
    (∀ (mode : String) (s : List ℤ), buildScale mode (some s) = s) ∧
    (∀ mode : String, (buildScale mode none).length = 8) := by
  constructor
  · intro mode s
    rfl
  · intro mode
    simp only [buildScale]
    split_ifs <;> rfl

/-! ### C4: the structural-arc fallback -/

theorem calcIntensity_fallback_eq (chapter total climax : ℤ) (minVal maxVal : ℚ)
    (tag : String) (h1 : tag ≠ "parabolic") (h2 : tag ≠ "slow_burn")
    (h3 : tag ≠ "descending") (h4 : tag ≠ "flat") (htot : 2 ≤ total) :
    calculateChapterIntensity chapter total tag minVal maxVal climax =
      .ok (minVal + (maxVal - minVal) *
        ratClip (1 - |(chapter : ℚ) / ((total : ℚ) - 1) - 1/2| * 2) 0 1) := by
  have hden : ((total : ℚ) - 1) ≠ 0 := by
    have : (2 : ℚ) ≤ (total : ℚ) := by exact_mod_cast htot
    linarith
  unfold calculateChapterIntensity
  rw [pyDiv, if_neg hden]
  simp only [ok_bind, if_neg h1, if_neg h2, if_neg h3, if_neg h4]
  rfl

theorem calcIntensity_parabolic_eq (chapter total climax : ℤ) (minVal maxVal : ℚ)
    (htot : 2 ≤ total) :
    calculateChapterIntensity chapter total "parabolic" minVal maxVal climax =
      .ok (minVal + (maxVal - minVal) *
        ratClip (1 - |(chapter : ℚ) / ((total : ℚ) - 1) -
          (climax : ℚ) / ((total : ℚ) - 1)| * 2) 0 1) := by
  have hden : ((total : ℚ) - 1) ≠ 0 := by
    have : (2 : ℚ) ≤ (total : ℚ) := by exact_mod_cast htot
    linarith
  unfold calculateChapterIntensity
  rw [pyDiv, if_neg hden]
  simp only [ok_bind, if_pos rfl]
  rw [pyDiv, if_neg hden]
  rfl

/-- C4 (counterexample): at chapter 6 of 12 with `climax_chapter = 6`,
`min = 0.2`, `max = 0.8`, an unknown arc-type tag yields `41/55 ≈ 0.745`,
while `parabolic` with the same climax yields `0.8`; the fallback is not
parabolic-with-that-climax. -/
theorem C4_counterexample :
    calculateChapterIntensity 6 12 "unknown" (1/5) (4/5) 6 ≠
      calculateChapterIntensity 6 12 "parabolic" (1/5) (4/5) 6 := by
  rw [calcIntensity_fallback_eq 6 12 6 (1/5) (4/5) "unknown" (by decide) (by decide)
      (by decide) (by decide) (by norm_num),
    calcIntensity_parabolic_eq 6 12 6 (1/5) (4/5) (by norm_num)]
  intro h
  injection h with h'
  norm_num [ratClip, abs_of_nonneg, max_def] at h'

/-- C4 (amended): an unrecognized arc-type tag falls back to a midpoint
parabola: the hard-coded normalized climax `0.5`, not
`climax_chapter/(total-1)`.  It therefore agrees with `parabolic` only when
`climax_chapter/(total-1) = 1/2`, and its peak is at the midpoint rather
than at `climax_chapter`. -/
theorem C4_amended_fallback (chapter total climax : ℤ) (minVal maxVal : ℚ)
    (tag : String) (h1 : tag ≠ "parabolic") (h2 : tag ≠ "slow_burn")
    (h3 : tag ≠ "descending") (h4 : tag ≠ "flat") (htot : 2 ≤ total) :
    calculateChapterIntensity chapter total tag minVal maxVal climax =
      .ok (minVal + (maxVal - minVal) *
        ratClip (1 - |(chapter : ℚ) / ((total : ℚ) - 1) - 1/2| * 2) 0 1) :=
  calcIntensity_fallback_eq chapter total climax minVal maxVal tag h1 h2 h3 h4 htot

/-- C4 witness: the amended fallback formula evaluated at a concrete
unknown tag. -/
theorem C4_amended_fallback_witness :
    calculateChapterIntensity 3 12 "bogus" (1/5) (4/5) 6 = .ok (29/55) := by
  rw [C4_amended_fallback 3 12 6 (1/5) (4/5) "bogus" (by decide) (by decide)
    (by decide) (by decide) (by norm_num)]
  norm_num [ratClip, abs_of_nonneg, max_def]

/-! ### C2 and C10: the Polyphony Manager -/

theorem pruneActive_of_alive (act : ActiveState) (t : ℚ)
    (h : ∀ e ∈ act, t < e.1) : pruneActive act t = act := by
  unfold pruneActive
  rw [List.filter_eq_self]
  intro a ha
  exact decide_eq_true (h a ha)

theorem enforce_length_le (maxP : ℕ) (act : ActiveState) (tr : ℕ) (t : ℚ)
    (pit : ℤ) (d : ℚ) (v : ℤ) (h : act.length ≤ maxP) :
    (enforcePolyphonyLimit maxP act tr t pit d v).1.length ≤ maxP := by
  have hp : (pruneActive act t).length ≤ act.length := List.length_filter_le _ _
  simp only [enforcePolyphonyLimit]
  split_ifs with h1 h2
  · simp only [List.length_append, List.length_cons, List.length_nil]
    omega
  · exact le_trans hp h
  · have hne : (pruneActive act t).length ≠ 0 := by
      intro h0
      exact h2 (List.isEmpty_iff_length_eq_zero.mpr h0)
    simp only [List.length_append, List.length_tail, List.length_cons, List.length_nil]
    omega

theorem submitAll_length_le (maxP : ℕ) (subs : List Submission) :
    ∀ act : ActiveState, act.length ≤ maxP →
      ((submitAll maxP act subs).1).length ≤ maxP := by
  induction subs with
  | nil => intro act h; exact h
  | cons s rest ih =>
    intro act h
    exact ih _ (enforce_length_le maxP act s.track s.time s.pitch s.dur s.vel h)

theorem submitAll_simultaneous (maxP : ℕ) (hmax : 1 ≤ maxP) (t d : ℚ) (hd : 0 < d)
    (p v : ℕ → ℤ) (tr : ℕ) :
    ∀ (n s k : ℕ), k ≤ maxP →
      submitAll maxP ((List.range' s k).map fun i => (t + d, p i, tr))
          ((List.range' (s + k) n).map fun i => (⟨tr, t, p i, d, v i⟩ : Submission)) =
        ((List.range' (s + k + n - min (k + n) maxP) (min (k + n) maxP)).map
            (fun i => (t + d, p i, tr)),
         (List.range' (s + k) n).map fun i => (⟨tr, p i, t, d, v i⟩ : NoteEv)) := by
  intro n
  induction n with
  | zero =>
    intro s k hk
    rw [show min (k + 0) maxP = k by omega, show s + k + 0 - k = s by omega]
    rfl
  | succ n ih =>
    intro s k hk
    have hprune : pruneActive ((List.range' s k).map fun i => (t + d, p i, tr)) t =
        (List.range' s k).map fun i => (t + d, p i, tr) := by
      apply pruneActive_of_alive
      intro e he
      rcases List.mem_map.mp he with ⟨i, _, rfl⟩
      simpa using hd
    rw [List.range'_succ, List.map_cons]
    simp only [submitAll]
    by_cases hlt : k < maxP
    · have hstep : enforcePolyphonyLimit maxP
          ((List.range' s k).map fun i => (t + d, p i, tr)) tr t (p (s + k)) d (v (s + k)) =
          ((List.range' s (k + 1)).map fun i => (t + d, p i, tr),
           some ⟨tr, p (s + k), t, d, v (s + k)⟩) := by
        simp only [enforcePolyphonyLimit]
        rw [hprune]
        rw [if_pos (by simpa using hlt)]
        rw [List.range'_1_concat, List.map_append]
        rfl
      rw [hstep]
      rw [show s + k + 1 = s + (k + 1) by omega, ih s (k + 1) (by omega)]
      rw [show k + 1 + n = k + (n + 1) by omega,
        show s + (k + 1) + n = s + k + (n + 1) by omega]
      rw [show s + (k + 1) = s + k + 1 by omega, ← List.range'_succ]
      rfl
    · have hkeq : maxP = k := by omega
      subst hkeq
      have hstep : enforcePolyphonyLimit maxP
          ((List.range' s maxP).map fun i => (t + d, p i, tr)) tr t (p (s + maxP)) d (v (s + maxP)) =
          ((List.range' (s + 1) maxP).map fun i => (t + d, p i, tr),
           some ⟨tr, p (s + maxP), t, d, v (s + maxP)⟩) := by
        simp only [enforcePolyphonyLimit]
        rw [hprune]
        rw [if_neg (by
          simp only [List.length_map, List.length_range']
          exact hlt)]
        rw [if_neg (by
          rw [List.isEmpty_iff_length_eq_zero]
          simp only [List.length_map, List.length_range']
          omega)]
        have htail : ((List.range' s maxP).map fun i => ((t + d, p i, tr) : ℚ × ℤ × ℕ)).tail =
            (List.range' (s + 1) (maxP - 1)).map fun i => (t + d, p i, tr) := by
          have h2 := List.range'_succ s (maxP - 1) 1
          rw [show maxP - 1 + 1 = maxP by omega] at h2
          rw [h2, List.map_cons, List.tail_cons]
        rw [htail]
        rw [show [((t + d, p (s + maxP), tr) : ℚ × ℤ × ℕ)] =
          (List.map (fun i => (t + d, p i, tr)) [s + maxP]) from rfl]
        rw [← List.map_append]
        have happ : List.range' (s + 1) (maxP - 1) ++ [s + maxP] = List.range' (s + 1) maxP := by
          have h1 := List.range'_1_concat (s + 1) (maxP - 1)
          rw [show maxP - 1 + 1 = maxP by omega,
            show s + 1 + (maxP - 1) = s + maxP by omega] at h1
          exact h1.symm
        rw [happ]
      rw [hstep]
      rw [show s + maxP + 1 = (s + 1) + maxP by omega, ih (s + 1) maxP (le_refl _)]
      rw [show min (maxP + n) maxP = maxP by omega,
        show min (maxP + (n + 1)) maxP = maxP by omega,
        show s + 1 + maxP + n - maxP = s + maxP + (n + 1) - maxP by omega]
      rw [show (s + 1) + maxP = s + maxP + 1 by omega, ← List.range'_succ]
      rfl

/-- C2 (confirmed): starting from the empty Active-Note Set, after every
submission sequence the set's size is at most the polyphony ceiling; and
submitting `ceiling+1` simultaneous notes (identical onset, positive
duration) leaves exactly `ceiling` entries, the first-submitted entry
(position 0) having been evicted — the final set holds the entries of
submissions `1..ceiling` in insertion order. -/
theorem C2_polyphony_invariant :
    (∀ (maxP : ℕ) (subs : List Submission), ((submitAll maxP [] subs).1).length ≤ maxP) ∧
    (∀ maxP : ℕ, 1 ≤ maxP → ∀ t d : ℚ, 0 < d → ∀ (p v : ℕ → ℤ) (tr : ℕ),
      (submitAll maxP [] ((List.range (maxP + 1)).map fun i =>
          (⟨tr, t, p i, d, v i⟩ : Submission))).1 =
        (List.range' 1 maxP).map fun i => (t + d, p i, tr)) := by
  constructor
  · intro maxP subs
    exact submitAll_length_le maxP subs [] (by simp)
  · intro maxP hmax t d hd p v tr
    have h := submitAll_simultaneous maxP hmax t d hd p v tr (maxP + 1) 0 0 (by omega)
    rw [List.range_eq_range']
    rw [show (List.range' 0 (maxP + 1)) = (List.range' (0 + 0) (maxP + 1)) from rfl]
    rw [show (([] : ActiveState) = (List.range' 0 0).map fun i => (t + d, p i, tr)) from rfl]
    rw [h]
    rw [show min (0 + (maxP + 1)) maxP = maxP by omega]
    rw [show 0 + 0 + (maxP + 1) - maxP = 1 by omega]

/-- C2 witness: ceiling 2, three simultaneous submissions. -/
theorem C2_polyphony_invariant_witness :
    ((submitAll 2 [] [⟨1, 0, 60, 4, 80⟩, ⟨1, 0, 61, 4, 81⟩, ⟨1, 0, 62, 4, 82⟩]).1).length ≤ 2 ∧
    (submitAll 2 [] ((List.range 3).map fun i =>
        (⟨1, 0, 60 + (i : ℤ), 4, 80 + (i : ℤ)⟩ : Submission))).1 =
      (List.range' 1 2).map fun i => ((0 : ℚ) + 4, 60 + (i : ℤ), 1) := by
  constructor
  · exact C2_polyphony_invariant.1 2 [⟨1, 0, 60, 4, 80⟩, ⟨1, 0, 61, 4, 81⟩, ⟨1, 0, 62, 4, 82⟩]
  · exact C2_polyphony_invariant.2 2 (by norm_num) 0 4 (by norm_num)
      (fun i => 60 + (i : ℤ)) (fun i => 80 + (i : ℤ)) 1

/-- C10 (confirmed): on the voice-stealing path (pruned set at or above the
ceiling and non-empty) the manager's only effects are dropping the
position-0 entry of the pruned set, writing the submitted note unchanged,
and appending its bookkeeping entry; consequently `ceiling+1` simultaneous
long notes all get written (`ceiling+1` note events with identical onset
and duration, hence sounding simultaneously) while the Active-Note Set ends
at exactly `ceiling` entries. -/
theorem C10_voice_steal_frame :
    (∀ (maxP : ℕ) (act : ActiveState) (tr : ℕ) (t : ℚ) (pit : ℤ) (d : ℚ) (v : ℤ),
      maxP ≤ (pruneActive act t).length → pruneActive act t ≠ [] →
      enforcePolyphonyLimit maxP act tr t pit d v =
        ((pruneActive act t).tail ++ [(t + d, pit, tr)], some ⟨tr, pit, t, d, v⟩)) ∧
    (∀ maxP : ℕ, 1 ≤ maxP → ∀ t d : ℚ, 0 < d → ∀ (p v : ℕ → ℤ) (tr : ℕ),
      (submitAll maxP [] ((List.range (maxP + 1)).map fun i =>
          (⟨tr, t, p i, d, v i⟩ : Submission))).2 =
        (List.range (maxP + 1)).map (fun i => (⟨tr, p i, t, d, v i⟩ : NoteEv)) ∧
      ((submitAll maxP [] ((List.range (maxP + 1)).map fun i =>
          (⟨tr, t, p i, d, v i⟩ : Submission))).1).length = maxP) := by
  constructor
  · intro maxP act tr t pit d v hlen hne
    simp only [enforcePolyphonyLimit]
    rw [if_neg (by omega)]
    rw [if_neg (by
      rw [List.isEmpty_iff_length_eq_zero]
      intro h0
      exact hne (List.length_eq_zero.mp h0))]
  · intro maxP hmax t d hd p v tr
    have h := submitAll_simultaneous maxP hmax t d hd p v tr (maxP + 1) 0 0 (by omega)
    rw [List.range_eq_range']
    rw [show (List.range' 0 (maxP + 1)) = (List.range' (0 + 0) (maxP + 1)) from rfl]
    rw [show (([] : ActiveState) = (List.range' 0 0).map fun i => (t + d, p i, tr)) from rfl]
    rw [h]
    constructor
    · rfl
    · simp only [List.length_map, List.length_range']
      omega

/-- C10 witness: ceiling 1, two simultaneous submissions — both notes are
written, the set ends with one entry; plus the frame characterization at a
concrete eviction. -/
theorem C10_voice_steal_frame_witness :
    enforcePolyphonyLimit 1 [(5, 60, 1)] 1 0 64 4 90 =
      ((pruneActive [(5, 60, 1)] 0).tail ++ [((0 : ℚ) + 4, 64, 1)], some ⟨1, 64, 0, 4, 90⟩) ∧
    (submitAll 1 [] ((List.range 2).map fun i =>
        (⟨1, 0, 60 + (i : ℤ), 4, 80 + (i : ℤ)⟩ : Submission))).2 =
      (List.range 2).map (fun i => (⟨1, 60 + (i : ℤ), 0, 4, 80 + (i : ℤ)⟩ : NoteEv)) := by
  constructor
  · exact C10_voice_steal_frame.1 1 [(5, 60, 1)] 1 0 64 4 90
      (by norm_num [pruneActive]) (by norm_num [pruneActive])
  · exact (C10_voice_steal_frame.2 1 (by norm_num) 0 4 (by norm_num)
      (fun i => 60 + (i : ℤ)) (fun i => 80 + (i : ℤ)) 1).1

/-! ### C3: non-positive duration -/

/-- A Composer with the default configuration except a single logistic-map
iteration, used for small concrete runs. -/
def smallEventComposer : Composer := { defaultComposer with eventsCount := 1 }

/-- Whether an event is a note on the given track. -/
def isNoteOn (tr : ℕ) : Event → Bool
  | .note n => decide (n.track = tr)
  | _ => false

theorem pyTrunc_nonpos {q : ℚ} (hq : q ≤ 0) : pyTrunc q ≤ 0 := by
  unfold pyTrunc
  split_ifs with h
  · calc ⌊q⌋ ≤ ⌊(0 : ℚ)⌋ := Int.floor_le_floor hq
    _ = 0 := Int.floor_zero
  · have h0 : (0 : ℤ) ≤ ⌊-q⌋ := Int.le_floor.mpr (by push_cast; linarith)
    omega

theorem beatsTotal_nonpos (c : Composer) (duration : ℚ) (htempo : 0 ≤ c.tempo)
    (hdur : duration ≤ 0) : pyTrunc (duration * (c.tempo : ℚ)) ≤ 0 := by
  apply pyTrunc_nonpos
  have ht : (0 : ℚ) ≤ (c.tempo : ℚ) := by exact_mod_cast htempo
  exact mul_nonpos_iff.mpr (Or.inr ⟨hdur, ht⟩)

theorem not_lt_beatsTotal {bt : ℤ} (hbt : bt ≤ 0) : ¬ ((0 : ℚ) < (bt : ℚ)) := by
  exact_mod_cast not_lt.mpr (by exact_mod_cast hbt : (bt : ℚ) ≤ 0)

/-- C3 (counterexample): with duration 0 (non-positive) and a configuration
whose ambient-event count is 1, chapter generation emits note events on
track 3: the ambient-event generator's loop is driven by the logistic-map
iteration count, not by the chapter duration, so the claim that all four
generators emit nothing fails for track 3. -/
theorem C3_counterexample :
    ((chapterEvents (createChapterMidi smallEventComposer 0 [] (1/2) (fun _ => 0) 0)).any
      (isNoteOn 3)) = true := by
  norm_num [createChapterMidi, generateHarmonicBed, harmonicBedLoop,
    generateMelodicTexture, melodicLoop, generateDrones, droneLoop,
    generateAmbientEvents, logisticMapEvents, logisticLoop, addMetallicSwell,
    pyTrunc, pyDiv, smallEventComposer, defaultComposer, chapterEvents,
    Except.bind, bind, List.range_succ, isNoteOn]

/-- C3 (amended): with a non-negative configured tempo and non-positive
duration, the harmonic-bed, melodic-texture and drone generators emit
nothing and raise no error (their loops never execute); the ambient-event
generator is not governed by the duration and can still emit events (see
the counterexample). -/
theorem C3_amended_no_events (c : Composer) (track : ℕ) (duration : ℚ)
    (primes : List ℤ) (act : ActiveState) (rand : ℕ → ℚ) (fuel : ℕ)
    (htempo : 0 ≤ c.tempo) (hdur : duration ≤ 0) :
    generateHarmonicBed c track duration primes fuel = .ok [] ∧
    generateMelodicTexture c track duration primes act rand fuel = .ok ([], act, 0) ∧
    generateDrones c track duration primes act fuel = .ok ([], act) := by
  have hbt := not_lt_beatsTotal (beatsTotal_nonpos c duration htempo hdur)
  refine ⟨?_, ?_, ?_⟩
  · unfold generateHarmonicBed
    cases fuel with
    | zero => simp only [harmonicBedLoop]; rw [if_neg hbt]
    | succ f => simp only [harmonicBedLoop]; rw [if_neg hbt]
  · unfold generateMelodicTexture
    cases fuel with
    | zero => simp only [melodicLoop]; rw [if_neg hbt]
    | succ f => simp only [melodicLoop]; rw [if_neg hbt]
  · unfold generateDrones
    cases fuel with
    | zero => simp only [droneLoop]; rw [if_neg hbt]
    | succ f => simp only [droneLoop]; rw [if_neg hbt]

/-- C3 witness: the default configuration at duration 0. -/
theorem C3_amended_no_events_witness :
    generateHarmonicBed defaultComposer 0 0 [] 5 = .ok [] ∧
    generateMelodicTexture defaultComposer 1 0 [] [] (fun _ => 0) 5 = .ok ([], [], 0) ∧
    generateDrones defaultComposer 2 0 [] [] 5 = .ok ([], []) :=
  C3_amended_no_events defaultComposer 0 0 [] [] (fun _ => 0) 5 (by norm_num [defaultComposer])
    (le_refl 0) |>.imp id (fun h => h.imp id id) |>.elim fun h1 h23 =>
      ⟨h1, (C3_amended_no_events defaultComposer 1 0 [] [] (fun _ => 0) 5
          (by norm_num [defaultComposer]) (le_refl 0)).2.1,
        (C3_amended_no_events defaultComposer 2 0 [] [] (fun _ => 0) 5
          (by norm_num [defaultComposer]) (le_refl 0)).2.2⟩

/-! ### C9: logistic-map determinism and event characterization -/

theorem logisticLoop_eq (r T : ℚ) (hT : T ≠ 1) (n : ℕ) :
    ∀ (k : ℕ) (i : ℕ) (x : ℚ), logisticLoop r T n k x i =
      .ok ((List.range k).filterMap fun m =>
        if T < logisticIterate r (m + 1) x then
          some (i + m, (logisticIterate r (m + 1) x - T) / (1 - T),
            ((i + m : ℕ) : ℚ) / (n : ℚ))
        else none) := by
  intro k
  induction k with
  | zero => intro i x; rfl
  | succ k ih =>
    intro i x
    rw [List.range_succ_eq_map, List.filterMap_cons, List.filterMap_map]
    simp only [logisticLoop]
    have hdiv : pyDiv GenErr.zeroDiv (r * x * (1 - x) - T) (1 - T) =
        .ok ((r * x * (1 - x) - T) / (1 - T)) := by
      unfold pyDiv
      rw [if_neg (by intro h0; exact hT (by linarith))]
    have hiter1 : logisticIterate r 1 x = r * x * (1 - x) := rfl
    have hcomp : ((fun m =>
        if T < logisticIterate r (m + 1) x then
          some (i + m, (logisticIterate r (m + 1) x - T) / (1 - T),
            ((i + m : ℕ) : ℚ) / (n : ℚ))
        else none) ∘ Nat.succ) = fun m =>
          if T < logisticIterate r (m + 1) (r * x * (1 - x)) then
            some ((i + 1) + m, (logisticIterate r (m + 1) (r * x * (1 - x)) - T) / (1 - T),
              (((i + 1) + m : ℕ) : ℚ) / (n : ℚ))
          else none := by
      funext m
      show (if T < logisticIterate r (m + 1 + 1) x then _ else _) = _
      have hit : logisticIterate r (m + 1 + 1) x = logisticIterate r (m + 1) (r * x * (1 - x)) := rfl
      have hidx : i + (m + 1) = (i + 1) + m := by omega
      rw [hit, hidx]
    rw [hcomp]
    have hc0 : logisticIterate r (0 + 1) x = r * x * (1 - x) := rfl
    by_cases hx : T < r * x * (1 - x)
    · rw [if_pos hx, hdiv, ok_bind, ih (i + 1) (r * x * (1 - x)), ok_bind]
      rw [if_pos (by rw [hc0]; exact hx)]
      simp only [hc0, Nat.add_zero]
    · rw [if_neg hx, ih (i + 1) (r * x * (1 - x))]
      rw [if_neg (by rw [hc0]; exact hx)]

/-- C9 (confirmed): the logistic-map event generator is a deterministic
pure function of `(r, seed, threshold, N)` — two Composers with the same
growth rate produce identical outputs — and (for `threshold ≠ 1`, so the
intensity quotient is defined) its events are exactly the iterations `m`
whose updated `x` exceeds the threshold, contributing intensity
`(x - T)/(1 - T)` and timestamp `m/N`. -/
theorem C9_logistic_deterministic :
    (∀ (c c' : Composer) (seed : ℚ) (n : ℕ) (T : ℚ), c.logisticR = c'.logisticR →
      logisticMapEvents c seed n T = logisticMapEvents c' seed n T) ∧
    (∀ (c : Composer) (seed : ℚ) (n : ℕ) (T : ℚ), T ≠ 1 →
      logisticMapEvents c seed n T =
        .ok ((List.range n).filterMap fun m =>
          if T < logisticIterate c.logisticR (m + 1) seed then
            some (m, (logisticIterate c.logisticR (m + 1) seed - T) / (1 - T),
              ((m : ℕ) : ℚ) / (n : ℚ))
          else none)) := by
  constructor
  · intro c c' seed n T hR
    unfold logisticMapEvents
    rw [hR]
  · intro c seed n T hT
    unfold logisticMapEvents
    rw [logisticLoop_eq c.logisticR T hT n n 0 seed]
    simp only [Nat.zero_add]

/-- C9 witness: the default growth rate `3.86`, seed `1/2`, threshold
`0.87`, two iterations: the single event `(0, 19/26, 0)`. -/
theorem C9_logistic_deterministic_witness :
    logisticMapEvents defaultComposer (1/2) 2 (87/100) =
      logisticMapEvents { defaultComposer with tempo := 100 } (1/2) 2 (87/100) ∧
    logisticMapEvents defaultComposer (1/2) 2 (87/100) = .ok [(0, 19/26, 0)] := by
  constructor
  · exact C9_logistic_deterministic.1 defaultComposer
      { defaultComposer with tempo := 100 } (1/2) 2 (87/100) rfl
  · rw [C9_logistic_deterministic.2 defaultComposer (1/2) 2 (87/100) (by norm_num)]
    norm_num [List.range_succ, List.filterMap_cons, List.filterMap_nil,
      logisticIterate, defaultComposer]

/-! ### C7: drone controller events -/

theorem ratClip_unit_bounds (q : ℚ) :
    -1 ≤ ratClip q (-1) 1 ∧ ratClip q (-1) 1 ≤ 1 := by
  unfold ratClip
  constructor
  · exact le_min (le_max_right q (-1)) (by norm_num)
  · exact min_le_right _ _

theorem droneBrightness_props (x : ℚ) :
    droneBrightness x = ⌊65 + 35 * ratClip (x / 20) (-1) 1⌋ ∧
    30 ≤ droneBrightness x ∧ droneBrightness x ≤ 100 := by
  obtain ⟨h1, h2⟩ := ratClip_unit_bounds (x / 20)
  have harg : (30 : ℚ) ≤ 65 + 35 * ratClip (x / 20) (-1) 1 := by linarith
  have harg' : 65 + 35 * ratClip (x / 20) (-1) 1 ≤ (100 : ℚ) := by linarith
  have hfl : droneBrightness x = ⌊65 + 35 * ratClip (x / 20) (-1) 1⌋ := by
    unfold droneBrightness pyTrunc
    rw [if_pos (by linarith)]
  refine ⟨hfl, ?_, ?_⟩
  · rw [hfl]
    exact Int.le_floor.mpr (by push_cast; linarith)
  · rw [hfl]
    calc ⌊65 + 35 * ratClip (x / 20) (-1) 1⌋ ≤ ⌊(100 : ℚ)⌋ := Int.floor_le_floor harg'
    _ = 100 := by norm_num

theorem droneCCLoop_eq (c : Composer) (track : ℕ) (bt : ℤ) (cb : ℚ) :
    ∀ (k : ℕ) (st : ℚ × ℚ × ℚ) (j : ℕ),
      droneCCLoop c track bt cb k st j =
        (lorenzIter c.lorenzSigma c.lorenzRho c.lorenzBeta k st,
         (List.range k).filterMap fun m =>
           if cb + ((j + m : ℕ) : ℚ) * c.droneCCEventInterval < (bt : ℚ) then
             some (Event.cc ⟨track, cb + ((j + m : ℕ) : ℚ) * c.droneCCEventInterval, 74,
               droneBrightness (lorenzIter c.lorenzSigma c.lorenzRho c.lorenzBeta (m + 1) st).1⟩)
           else none) := by
  intro k
  induction k with
  | zero => intro st j; rfl
  | succ k ih =>
    intro st j
    rw [List.range_succ_eq_map, List.filterMap_cons, List.filterMap_map]
    simp only [droneCCLoop]
    have hcomp : ((fun m =>
        if cb + ((j + m : ℕ) : ℚ) * c.droneCCEventInterval < (bt : ℚ) then
          some (Event.cc ⟨track, cb + ((j + m : ℕ) : ℚ) * c.droneCCEventInterval, 74,
            droneBrightness (lorenzIter c.lorenzSigma c.lorenzRho c.lorenzBeta (m + 1) st).1⟩)
        else none) ∘ Nat.succ) = fun m =>
          if cb + (((j + 1) + m : ℕ) : ℚ) * c.droneCCEventInterval < (bt : ℚ) then
            some (Event.cc ⟨track, cb + (((j + 1) + m : ℕ) : ℚ) * c.droneCCEventInterval, 74,
              droneBrightness (lorenzIter c.lorenzSigma c.lorenzRho c.lorenzBeta (m + 1)
                (lorenzStep c.lorenzSigma c.lorenzRho c.lorenzBeta st.1 st.2.1 st.2.2)).1⟩)
          else none := by
      funext m
      have hidx : j + (m + 1) = (j + 1) + m := by omega
      show (if cb + ((j + (m + 1) : ℕ) : ℚ) * c.droneCCEventInterval < (bt : ℚ) then _ else _) = _
      rw [hidx]
      rfl
    rw [hcomp, ih]
    simp only [Nat.add_zero]
    by_cases hcc : cb + (j : ℚ) * c.droneCCEventInterval < (bt : ℚ)
    · rw [if_pos hcc, if_pos hcc]
      rfl
    · rw [if_neg hcc, if_neg hcc]
      rfl

/-- C7 (counterexample): with `lorenz_sigma = -200` the first Lorenz step
from `(0.1, 0, 0)` reaches `x = 0.3`; the code emits controller value
`int(65 + 35*clip(0.015, -1, 1)) = int(65.525) = 65` (truncation), while
the claimed `round(65.525) = 66`. -/
theorem C7_counterexample :
    runEvents (generateDrones { defaultComposer with lorenzSigma := -200 } 2 (1/58) [2] [] 2) =
      [Event.cc ⟨2, 0, 74, 65⟩, Event.note ⟨2, 38, 0, 1, 50⟩] ∧
    round (65 + 35 * ratClip ((lorenzStep (-200) 28 (8/3) (1/10) 0 0).1 / 20) (-1) 1 : ℚ) = 66 ∧
    (65 : ℤ) ≠ 66 := by
  refine ⟨?_, ?_, by decide⟩
  · norm_num [generateDrones, droneLoop, droneCCLoop, droneBrightness, lorenzStep,
      pyTrunc, ratClip, pyCyc, pyIndex, pyDiv, pyMod, defaultComposer, buildScale,
      enforcePolyphonyLimit, pruneActive, runEvents, Except.bind, bind]
  · rw [round_eq]
    norm_num [lorenzStep, ratClip]

/-- C7 (amended): the controller-74 value is computed from the Lorenz x by
`int(65 + 35*clip(x/20, -1, 1))` — truncation (equivalently `⌊·⌋`, the
argument being positive), not rounding — and therefore always lies in
`[30, 100] ⊆ [0, 127]`; within one drone, the `i`-th integration step's
controller event is emitted exactly when its computed time
`current_beat + i*cc_event_interval` is strictly below `beats_total`, with
the value taken from the Lorenz state after `i+1` steps. -/
theorem C7_amended_brightness :
    (∀ x : ℚ, droneBrightness x = ⌊65 + 35 * ratClip (x / 20) (-1) 1⌋ ∧
      30 ≤ droneBrightness x ∧ droneBrightness x ≤ 100) ∧
    (∀ (c : Composer) (track : ℕ) (bt : ℤ) (cb : ℚ) (k : ℕ) (st : ℚ × ℚ × ℚ),
      droneCCLoop c track bt cb k st 0 =
        (lorenzIter c.lorenzSigma c.lorenzRho c.lorenzBeta k st,
         (List.range k).filterMap fun (m : ℕ) =>
           if cb + ((m : ℕ) : ℚ) * c.droneCCEventInterval < (bt : ℚ) then
             some (Event.cc ⟨track, cb + ((m : ℕ) : ℚ) * c.droneCCEventInterval, 74,
               droneBrightness (lorenzIter c.lorenzSigma c.lorenzRho c.lorenzBeta (m + 1) st).1⟩)
           else none)) := by
  constructor
  · exact droneBrightness_props
  · intro c track bt cb k st
    rw [droneCCLoop_eq c track bt cb k st 0]
    simp only [Nat.zero_add]

/-! ### C6: empty prime sequences

The only operation in the embedding that can produce the
`GenErr.emptyPrimes` error is the cyclic indexing `primes[i % len(primes)]`;
the following lemmas track that no other operation can, so generation with
a non-empty prime sequence can never fail with it. -/

theorem nope_ok {α : Type} (a : α) :
    (Except.ok a : Exc α) ≠ Except.error GenErr.emptyPrimes := by
  intro h
  cases h

theorem nope_pure {α : Type} (a : α) :
    (pure a : Exc α) ≠ Except.error GenErr.emptyPrimes := by
  intro h
  cases h

theorem nope_bind {α β : Type} {x : Exc α} {f : α → Exc β}
    (hx : x ≠ Except.error GenErr.emptyPrimes)
    (hf : ∀ a, f a ≠ Except.error GenErr.emptyPrimes) :
    (x >>= f) ≠ Except.error GenErr.emptyPrimes := by
  cases x with
  | ok a => exact hf a
  | error e =>
    have he : e ≠ GenErr.emptyPrimes := by
      intro hh
      exact hx (by rw [hh])
    rw [error_bind]
    intro h
    injection h with h'
    exact he h'

theorem pyMod_nope {e : GenErr} (he : e ≠ .emptyPrimes) (a b : ℤ) :
    pyMod e a b ≠ .error .emptyPrimes := by
  unfold pyMod
  split_ifs
  · intro h
    injection h with h'
    exact he h'
  · exact nope_ok _

theorem pyModIdx_nope {e : GenErr} (he : e ≠ .emptyPrimes) (a : ℤ) (b : ℕ) :
    pyModIdx e a b ≠ .error .emptyPrimes := by
  unfold pyModIdx
  split_ifs
  · intro h
    injection h with h'
    exact he h'
  · exact nope_ok _

theorem pyDiv_nope {e : GenErr} (he : e ≠ .emptyPrimes) (a b : ℚ) :
    pyDiv e a b ≠ .error .emptyPrimes := by
  unfold pyDiv
  split_ifs
  · intro h
    injection h with h'
    exact he h'
  · exact nope_ok _

theorem pyIndex_nope {α : Type} {e : GenErr} (he : e ≠ .emptyPrimes) (l : List α) (i : ℕ) :
    pyIndex e l i ≠ .error .emptyPrimes := by
  unfold pyIndex
  cases l.get? i with
  | some v => exact nope_ok _
  | none =>
    intro h
    injection h with h'
    exact he h'

theorem pyCyc_tag_nope {α : Type} {e : GenErr} (he : e ≠ .emptyPrimes) (l : List α) (i : ℕ) :
    pyCyc e l i ≠ .error .emptyPrimes := pyIndex_nope he l _

theorem pyCyc_primes_nope {l : List ℤ} (hl : l ≠ []) (i : ℕ) :
    pyCyc .emptyPrimes l i ≠ .error .emptyPrimes := by
  intro h
  exact pyCyc_ne_error .emptyPrimes l i hl _ h

theorem buildChordNotes_nope (scale : List ℤ) (root shift : ℤ) :
    ∀ itvs : List ℤ, buildChordNotes scale root shift itvs ≠ .error .emptyPrimes := by
  intro itvs
  induction itvs with
  | nil => exact nope_ok _
  | cons itv rest ih =>
    simp only [buildChordNotes]
    apply nope_bind (pyModIdx_nope (by decide) _ _)
    intro idx
    apply nope_bind (pyIndex_nope (by decide) _ _)
    intro note
    apply nope_bind ih
    intro others
    exact nope_ok _

theorem buildChord_nope (c : Composer) (root prime : ℤ) :
    buildChord c root prime ≠ .error .emptyPrimes := by
  simp only [buildChord]
  by_cases hv : c.harmonyVariation = true
  · rw [if_pos hv]
    apply nope_bind (pyMod_nope (by decide) _ _)
    intro m
    apply nope_bind (nope_pure _)
    intro y
    exact buildChordNotes_nope _ _ _ _
  · rw [if_neg hv]
    apply nope_bind (nope_pure _)
    intro y
    exact buildChordNotes_nope _ _ _ _

theorem harmonicBedLoop_nope (c : Composer) (track : ℕ) (primes : List ℤ) (bt : ℤ)
    (hp : primes ≠ []) :
    ∀ (fuel : ℕ) (cb : ℚ) (idx : ℕ),
      harmonicBedLoop c track primes bt fuel cb idx ≠ .error .emptyPrimes := by
  intro fuel
  induction fuel with
  | zero =>
    intro cb idx
    simp only [harmonicBedLoop]
    split_ifs
    · intro h
      injection h with h'
      cases h'
    · exact nope_ok _
  | succ f ih =>
    intro cb idx
    simp only [harmonicBedLoop]
    split_ifs
    · apply nope_bind (pyCyc_primes_nope hp idx)
      intro prime
      apply nope_bind (pyMod_nope (by decide) _ _)
      intro pm
      apply nope_bind (pyModIdx_nope (by decide) _ _)
      intro rootIdx
      apply nope_bind (pyCyc_primes_nope hp idx)
      intro prime2
      apply nope_bind (buildChord_nope c _ _)
      intro chordNotes
      apply nope_bind (pyMod_nope (by decide) _ _)
      intro vm
      apply nope_bind (ih _ _)
      intro rest
      exact nope_ok _
    · exact nope_ok _

theorem melodicInnerLoop_nope (c : Composer) (track : ℕ) (rand : ℕ → ℚ) (cb : ℚ)
    (prime rs : ℤ) (dens : ℚ) (fib : List ℕ) :
    ∀ (degrees : List ℤ) (i : ℕ) (act : ActiveState) (ridx : ℕ),
      melodicInnerLoop c track rand cb prime rs dens fib degrees i act ridx ≠
        .error .emptyPrimes := by
  intro degrees
  induction degrees with
  | nil =>
    intro i act ridx
    exact nope_ok _
  | cons degree rest ih =>
    intro i act ridx
    simp only [melodicInnerLoop]
    apply nope_bind (pyModIdx_nope (by decide) _ _)
    intro noteIdx
    apply nope_bind (pyIndex_nope (by decide) _ _)
    intro base
    apply nope_bind (pyCyc_tag_nope (by decide) _ _)
    intro fibVal
    apply nope_bind (pyMod_nope (by decide) _ _)
    intro vm
    split_ifs
    · apply nope_bind (pyModIdx_nope (by decide) _ _)
      intro ornIdx
      apply nope_bind (pyIndex_nope (by decide) _ _)
      intro ornBase
      apply nope_bind (ih _ _ _)
      intro restRes
      exact nope_ok _
    · apply nope_bind (ih _ _ _)
      intro restRes
      exact nope_ok _

theorem melodicLoop_nope (c : Composer) (track : ℕ) (primes : List ℤ) (bt mib : ℤ)
    (rand : ℕ → ℚ) (hp : primes ≠ []) :
    ∀ (fuel : ℕ) (cb : ℚ) (mc : ℕ) (act : ActiveState) (ridx : ℕ),
      melodicLoop c track primes bt mib rand fuel cb mc act ridx ≠ .error .emptyPrimes := by
  intro fuel
  induction fuel with
  | zero =>
    intro cb mc act ridx
    simp only [melodicLoop]
    split_ifs
    · intro h
      injection h with h'
      cases h'
    · exact nope_ok _
  | succ f ih =>
    intro cb mc act ridx
    simp only [melodicLoop]
    split_ifs
    · apply nope_bind (pyCyc_primes_nope hp mc)
      intro prime
      apply nope_bind (pyMod_nope (by decide) _ _)
      intro rm
      apply nope_bind (pyMod_nope (by decide) _ _)
      intro om
      apply nope_bind (melodicInnerLoop_nope c track rand cb prime _ _ _ _ _ _ _)
      intro inner
      apply nope_bind (ih _ _ _ _)
      intro rest
      exact nope_ok _
    · exact nope_ok _

theorem droneLoop_nope (c : Composer) (track : ℕ) (primes : List ℤ) (bt : ℤ)
    (hp : primes ≠ []) :
    ∀ (fuel : ℕ) (cb : ℚ) (idx : ℕ) (st : ℚ × ℚ × ℚ) (act : ActiveState),
      droneLoop c track primes bt fuel cb idx st act ≠ .error .emptyPrimes := by
  intro fuel
  induction fuel with
  | zero =>
    intro cb idx st act
    simp only [droneLoop]
    split_ifs
    · intro h
      injection h with h'
      cases h'
    · exact nope_ok _
  | succ f ih =>
    intro cb idx st act
    simp only [droneLoop]
    split_ifs
    · apply nope_bind (pyCyc_primes_nope hp idx)
      intro prime
      apply nope_bind (pyIndex_nope (by decide) _ _)
      intro rootBase
      apply nope_bind (pyDiv_nope (by decide) _ _)
      intro q
      apply nope_bind (ih _ _ _ _)
      intro rest
      exact nope_ok _
    · exact nope_ok _

theorem logisticLoop_nope (r T : ℚ) (n : ℕ) :
    ∀ (k : ℕ) (x : ℚ) (i : ℕ), logisticLoop r T n k x i ≠ .error .emptyPrimes := by
  intro k
  induction k with
  | zero =>
    intro x i
    exact nope_ok _
  | succ k ih =>
    intro x i
    simp only [logisticLoop]
    split_ifs
    · apply nope_bind (pyDiv_nope (by decide) _ _)
      intro intensity
      apply nope_bind (ih _ _)
      intro rest
      exact nope_ok _
    · exact ih _ _

theorem generateAmbientEvents_nope (c : Composer) (track : ℕ) (duration chaosSeed : ℚ) :
    generateAmbientEvents c track duration chaosSeed ≠ .error .emptyPrimes := by
  simp only [generateAmbientEvents, logisticMapEvents]
  apply nope_bind (logisticLoop_nope _ _ _ _ _ _)
  intro events
  exact nope_ok _

/-- C6 (corrected): an empty prime sequence makes chapter generation fail
with the empty-primes modulo error precisely when the generators' loops
actually run, i.e. when `beats_total = int(duration * tempo) ≥ 1` — a
positive duration alone does not suffice (e.g. `duration = 1/100` min at
tempo 58 gives `beats_total = 0` and generation succeeds with empty
prime-driven tracks).  A non-empty prime sequence never triggers that
failing operation. -/
theorem C6_empty_primes (c : Composer) (duration chaosSeed : ℚ) (rand : ℕ → ℚ) (fuel : ℕ) :
    (1 ≤ pyTrunc (duration * (c.tempo : ℚ)) →
      createChapterMidi c duration [] chaosSeed rand (fuel + 1) = .error .emptyPrimes) ∧
    (∀ primes : List ℤ, primes ≠ [] →
      createChapterMidi c duration primes chaosSeed rand fuel ≠ .error .emptyPrimes) := by
  constructor
  · intro hbt
    have hlt : (0 : ℚ) < (pyTrunc (duration * (c.tempo : ℚ)) : ℚ) := by
      exact_mod_cast lt_of_lt_of_le Int.zero_lt_one hbt
    show (generateHarmonicBed c 0 duration [] (fuel + 1) >>= _) = _
    have hhb : generateHarmonicBed c 0 duration [] (fuel + 1) = .error .emptyPrimes := by
      unfold generateHarmonicBed
      simp only [harmonicBedLoop]
      rw [if_pos hlt]
      rfl
    rw [hhb, error_bind]
  · intro primes hp
    show (generateHarmonicBed c 0 duration primes fuel >>= _) ≠ _
    apply nope_bind
    · unfold generateHarmonicBed
      exact harmonicBedLoop_nope c 0 primes _ hp fuel 0 0
    · intro hb
      apply nope_bind
      · unfold generateMelodicTexture
        exact melodicLoop_nope c 1 primes _ _ rand hp fuel 0 0 [] 0
      · intro mel
        apply nope_bind
        · unfold generateDrones
          exact droneLoop_nope c 2 primes _ hp fuel 0 0 (1/10, 0, 0) mel.2.1
        · intro dr
          apply nope_bind (generateAmbientEvents_nope c 3 duration chaosSeed)
          intro amb
          exact nope_ok _

/-- C6 witness: at tempo 58, duration 1 with empty primes fails with the
empty-primes error; duration `1/58` with primes `[2]` does not. -/
theorem C6_empty_primes_witness :
    createChapterMidi defaultComposer 1 [] (1/2) (fun _ => 0) 1 = .error .emptyPrimes ∧
    createChapterMidi smallEventComposer (1/58) [2] (1/2) (fun _ => 0) 2 ≠
      .error .emptyPrimes := by
  constructor
  · exact (C6_empty_primes defaultComposer 1 (1/2) (fun _ => 0) 0).1 (by
      norm_num [pyTrunc, defaultComposer])
  · exact (C6_empty_primes smallEventComposer (1/58) (1/2) (fun _ => 0) 2).2 [2] (by decide)

/-- C6 (counterexample): a strictly positive duration (1/100 minute) at the
default tempo gives `beats_total = 0`, so a chapter-generation call with an
EMPTY prime sequence succeeds — the claim that every positive duration
makes empty-primes generation fail is false. -/
theorem C6_counterexample :
    isOkE (createChapterMidi smallEventComposer (1/100) [] (1/2) (fun _ => 0) 1) = true := by
  norm_num [createChapterMidi, generateHarmonicBed, harmonicBedLoop,
    generateMelodicTexture, melodicLoop, generateDrones, droneLoop,
    generateAmbientEvents, logisticMapEvents, logisticLoop, addMetallicSwell,
    pyTrunc, pyDiv, smallEventComposer, defaultComposer, isOkE,
    Except.bind, bind, List.range_succ]

/-! ### C1: pitch and velocity bounds -/

theorem buildScale_default_bounds (mode : String) :
    ∀ v ∈ buildScale mode none, 62 ≤ v ∧ v ≤ 81 := by
  intro v hv
  unfold buildScale at hv
  split_ifs at hv <;> fin_cases hv <;> omega

theorem pyTrunc_bounds (lo hi : ℤ) {q : ℚ} (h0 : 0 ≤ q) (hlo : (lo : ℚ) ≤ q)
    (hhi : q ≤ (hi : ℚ)) : lo ≤ pyTrunc q ∧ pyTrunc q ≤ hi := by
  unfold pyTrunc
  rw [if_pos h0]
  refine ⟨Int.le_floor.mpr hlo, ?_⟩
  calc ⌊q⌋ ≤ ⌊(hi : ℚ)⌋ := Int.floor_le_floor hhi
  _ = hi := Int.floor_intCast hi

theorem enforce_emit_eq (maxP : ℕ) (act : ActiveState) (tr : ℕ) (t : ℚ) (pit : ℤ)
    (d : ℚ) (v : ℤ) :
    ∀ n, (enforcePolyphonyLimit maxP act tr t pit d v).2 = some n →
      n = ⟨tr, pit, t, d, v⟩ := by
  intro n h
  simp only [enforcePolyphonyLimit] at h
  split_ifs at h
  all_goals cases h
  all_goals rfl

theorem emit_toList_mem {maxP : ℕ} {act : ActiveState} {tr : ℕ} {t : ℚ} {pit : ℤ}
    {d : ℚ} {v : ℤ} {e : Event}
    (he : e ∈ ((enforcePolyphonyLimit maxP act tr t pit d v).2.toList.map Event.note)) :
    e = Event.note ⟨tr, pit, t, d, v⟩ := by
  cases hs : (enforcePolyphonyLimit maxP act tr t pit d v).2 with
  | none =>
    rw [hs] at he
    cases he
  | some n =>
    rw [hs] at he
    simp only [Option.toList_some, List.map_cons, List.map_nil, List.mem_cons,
      List.not_mem_nil, or_false] at he
    rw [he, enforce_emit_eq maxP act tr t pit d v n hs]

theorem buildChordNotes_mem (scale : List ℤ) (root shift : ℤ) :
    ∀ (itvs notes : List ℤ), buildChordNotes scale root shift itvs = .ok notes →
      ∀ nt ∈ notes, ∃ s ∈ scale, nt = s + shift := by
  intro itvs
  induction itvs with
  | nil =>
    intro notes h nt hnt
    injection h with h'
    rw [← h'] at hnt
    cases hnt
  | cons itv rest ih =>
    intro notes h nt hnt
    simp only [buildChordNotes] at h
    cases hidx : pyModIdx GenErr.emptyScale (root + itv) scale.length with
    | error e => rw [hidx, error_bind] at h; cases h
    | ok idx =>
      rw [hidx, ok_bind] at h
      cases hnote : pyIndex GenErr.emptyScale scale idx with
      | error e => rw [hnote, error_bind] at h; cases h
      | ok s =>
        rw [hnote, ok_bind] at h
        cases hrest : buildChordNotes scale root shift rest with
        | error e => rw [hrest, error_bind] at h; cases h
        | ok others =>
          rw [hrest, ok_bind] at h
          injection h with h'
          rw [← h'] at hnt
          rcases List.mem_cons.mp hnt with h1 | h1
          · exact ⟨s, pyIndex_mem hnote, h1⟩
          · exact ih others hrest nt h1

theorem buildChord_mem (c : Composer) (root prime : ℤ) :
    ∀ notes, buildChord c root prime = .ok notes →
      ∀ nt ∈ notes, ∃ s ∈ c.scale, nt = s - 12 ∨ nt = s := by
  intro notes h nt hnt
  simp only [buildChord] at h
  by_cases hv : c.harmonyVariation = true
  · rw [if_pos hv] at h
    cases hm : pyMod GenErr.zeroMod prime c.harmonyVariationMod with
    | error e => rw [hm, error_bind] at h; cases h
    | ok m =>
      rw [hm, ok_bind, pure_bind_exc] at h
      by_cases hsh : Int.fmod prime 2 = 0
      · rw [if_pos hsh] at h
        obtain ⟨s, hs, hnt'⟩ := buildChordNotes_mem c.scale root (-12) _ notes h nt hnt
        exact ⟨s, hs, Or.inl (by omega)⟩
      · rw [if_neg hsh] at h
        obtain ⟨s, hs, hnt'⟩ := buildChordNotes_mem c.scale root 0 _ notes h nt hnt
        exact ⟨s, hs, Or.inr (by omega)⟩
  · rw [if_neg hv, pure_bind_exc] at h
    by_cases hsh : Int.fmod prime 2 = 0
    · rw [if_pos hsh] at h
      obtain ⟨s, hs, hnt'⟩ := buildChordNotes_mem c.scale root (-12) _ notes h nt hnt
      exact ⟨s, hs, Or.inl (by omega)⟩
    · rw [if_neg hsh] at h
      obtain ⟨s, hs, hnt'⟩ := buildChordNotes_mem c.scale root 0 _ notes h nt hnt
      exact ⟨s, hs, Or.inr (by omega)⟩

theorem noteBoundsOk_note {n : NoteEv} (h1 : 0 ≤ n.pitch) (h2 : n.pitch ≤ 127)
    (h3 : 0 ≤ n.vel) (h4 : n.vel ≤ 127) : noteBoundsOk (Event.note n) = true := by
  simp only [noteBoundsOk, decide_eq_true_eq]
  exact ⟨h1, h2, h3, h4⟩

theorem harmonicBedLoop_bounds (c : Composer) (track : ℕ) (primes : List ℤ) (bt : ℤ)
    (hsc : ∀ v ∈ c.scale, 62 ≤ v ∧ v ≤ 81)
    (hbv : c.hbBaseVelocity = 45) (hbr : c.hbPrimeModRange = 20) :
    ∀ (fuel : ℕ) (cb : ℚ) (idx : ℕ) (out : List Event),
      harmonicBedLoop c track primes bt fuel cb idx = .ok out →
      ∀ e ∈ out, noteBoundsOk e = true := by
  intro fuel
  induction fuel with
  | zero =>
    intro cb idx out h
    simp only [harmonicBedLoop] at h
    split_ifs at h
    all_goals cases h
    all_goals intro e he
    all_goals cases he
  | succ f ih =>
    intro cb idx out h
    simp only [harmonicBedLoop] at h
    split_ifs at h
    case neg =>
      cases h
      intro e he
      cases he
    case pos =>
      cases hp1 : pyCyc GenErr.emptyPrimes primes idx with
      | error e => rw [hp1, error_bind] at h; cases h
      | ok prime =>
        rw [hp1, ok_bind] at h
        cases hpm : pyMod GenErr.zeroMod prime c.hbPrimeModFactor with
        | error e => rw [hpm, error_bind] at h; cases h
        | ok pm =>
          rw [hpm, ok_bind] at h
          cases hri : pyModIdx GenErr.emptyScale ((idx : ℤ) * 2) c.scale.length with
          | error e => rw [hri, error_bind] at h; cases h
          | ok rootIdx =>
            rw [hri, ok_bind, ok_bind] at h
            cases hch : buildChord c (rootIdx : ℤ) prime with
            | error e => rw [hch, error_bind] at h; cases h
            | ok chordNotes =>
              rw [hch, ok_bind] at h
              cases hvm : pyMod GenErr.zeroMod prime c.hbPrimeModRange with
              | error e => rw [hvm, error_bind] at h; cases h
              | ok vm =>
                rw [hvm, ok_bind] at h
                cases hrest : harmonicBedLoop c track primes bt f
                    (cb + (c.hbBaseDuration + (pm : ℚ))) (idx + 1) with
                | error e => rw [hrest, error_bind] at h; cases h
                | ok rest =>
                  rw [hrest, ok_bind] at h
                  cases h
                  intro e he
                  rcases List.mem_append.mp he with h1 | h1
                  · rcases List.mem_map.mp h1 with ⟨nt, hnt, rfl⟩
                    obtain ⟨s, hs, hshift⟩ := buildChord_mem c _ _ chordNotes hch nt hnt
                    obtain ⟨hs1, hs2⟩ := hsc s hs
                    have hvmb : 0 ≤ vm ∧ vm < 20 := by
                      rw [hbr] at hvm
                      exact pyMod_bounds (by omega) hvm
                    apply noteBoundsOk_note <;> simp only [hbv] <;> omega
                  · exact ih _ _ rest hrest e h1

theorem bind_ok_inv {α β : Type} {x : Exc α} {f : α → Exc β} {b : β}
    (h : (x >>= f) = .ok b) : ∃ a, x = .ok a ∧ f a = .ok b := by
  cases x with
  | ok a => exact ⟨a, rfl, h⟩
  | error e => rw [error_bind] at h; cases h

theorem melodicInnerLoop_bounds (c : Composer) (track : ℕ) (rand : ℕ → ℚ) (cb : ℚ)
    (prime rs : ℤ) (dens : ℚ) (fib : List ℕ)
    (hsc : ∀ v ∈ c.scale, 62 ≤ v ∧ v ≤ 81)
    (hmv : c.melBaseVelocity = 55) (hmr : c.melPrimeModRange = 25)
    (hrs : rs = 0 ∨ rs = 12) :
    ∀ (degrees : List ℤ) (i : ℕ) (act : ActiveState) (ridx : ℕ)
      (res : List Event × ActiveState × ℕ),
      melodicInnerLoop c track rand cb prime rs dens fib degrees i act ridx = .ok res →
      ∀ e ∈ res.1, noteBoundsOk e = true := by
  intro degrees
  induction degrees with
  | nil =>
    intro i act ridx res h
    cases h
    intro e he
    cases he
  | cons degree rest ih =>
    intro i act ridx res h
    simp only [melodicInnerLoop] at h
    obtain ⟨noteIdx, hni, h⟩ := bind_ok_inv h
    obtain ⟨base, hbase, h⟩ := bind_ok_inv h
    obtain ⟨fibVal, hfib, h⟩ := bind_ok_inv h
    obtain ⟨vm, hvm, h⟩ := bind_ok_inv h
    have hvmb : 0 ≤ vm ∧ vm < 25 := by
      rw [hmr] at hvm
      exact pyMod_bounds (by omega) hvm
    obtain ⟨hb1, hb2⟩ := hsc base (pyIndex_mem hbase)
    split_ifs at h with hor
    · obtain ⟨ornIdx, hoi, h⟩ := bind_ok_inv h
      obtain ⟨ornBase, hob, h⟩ := bind_ok_inv h
      obtain ⟨restRes, hrest, h⟩ := bind_ok_inv h
      obtain ⟨ho1, ho2⟩ := hsc ornBase (pyIndex_mem hob)
      cases h
      intro e he
      rcases List.mem_append.mp he with h1 | h1
      · rcases List.mem_append.mp h1 with h2 | h2
        · rw [emit_toList_mem h2]
          apply noteBoundsOk_note <;> simp only [hmv] <;> omega
        · rw [emit_toList_mem h2]
          apply noteBoundsOk_note <;> simp only [hmv] <;> omega
      · exact ih _ _ _ restRes hrest e h1
    · obtain ⟨restRes, hrest, h⟩ := bind_ok_inv h
      cases h
      intro e he
      rcases List.mem_append.mp he with h1 | h1
      · rw [emit_toList_mem h1]
        apply noteBoundsOk_note <;> simp only [hmv] <;> omega
      · exact ih _ _ _ restRes hrest e h1

theorem melodicLoop_bounds (c : Composer) (track : ℕ) (primes : List ℤ) (bt mib : ℤ)
    (rand : ℕ → ℚ)
    (hsc : ∀ v ∈ c.scale, 62 ≤ v ∧ v ≤ 81)
    (hmv : c.melBaseVelocity = 55) (hmr : c.melPrimeModRange = 25) :
    ∀ (fuel : ℕ) (cb : ℚ) (mc : ℕ) (act : ActiveState) (ridx : ℕ)
      (res : List Event × ActiveState × ℕ),
      melodicLoop c track primes bt mib rand fuel cb mc act ridx = .ok res →
      ∀ e ∈ res.1, noteBoundsOk e = true := by
  intro fuel
  induction fuel with
  | zero =>
    intro cb mc act ridx res h
    simp only [melodicLoop] at h
    split_ifs at h
    all_goals cases h
    all_goals intro e he
    all_goals cases he
  | succ f ih =>
    intro cb mc act ridx res h
    simp only [melodicLoop] at h
    split_ifs at h
    case neg =>
      cases h
      intro e he
      cases he
    case pos =>
      obtain ⟨prime, hp, h⟩ := bind_ok_inv h
      obtain ⟨rm, hrm, h⟩ := bind_ok_inv h
      obtain ⟨om, hom, h⟩ := bind_ok_inv h
      obtain ⟨inner, hinner, h⟩ := bind_ok_inv h
      obtain ⟨rest, hrest, h⟩ := bind_ok_inv h
      cases h
      intro e he
      rcases List.mem_append.mp he with h1 | h1
      · exact melodicInnerLoop_bounds c track rand cb prime _ _ _ hsc hmv hmr
          (by split_ifs <;> simp) _ _ _ _ inner hinner e h1
      · exact ih _ _ _ _ rest hrest e h1

theorem droneCCLoop_all_cc (c : Composer) (track : ℕ) (bt : ℤ) (cb : ℚ) :
    ∀ (k : ℕ) (st : ℚ × ℚ × ℚ) (j : ℕ),
      ∀ e ∈ (droneCCLoop c track bt cb k st j).2, noteBoundsOk e = true := by
  intro k
  induction k with
  | zero =>
    intro st j e he
    cases he
  | succ k ih =>
    intro st j e he
    simp only [droneCCLoop] at he
    split_ifs at he
    · rcases List.mem_cons.mp he with h1 | h1
      · rw [h1]
        rfl
      · exact ih _ _ e h1
    · exact ih _ _ e he

theorem droneLoop_bounds (c : Composer) (track : ℕ) (primes : List ℤ) (bt : ℤ)
    (hsc : ∀ v ∈ c.scale, 62 ≤ v ∧ v ≤ 81) (hdv : c.droneVelocity = 50) :
    ∀ (fuel : ℕ) (cb : ℚ) (idx : ℕ) (st : ℚ × ℚ × ℚ) (act : ActiveState)
      (res : List Event × ActiveState),
      droneLoop c track primes bt fuel cb idx st act = .ok res →
      ∀ e ∈ res.1, noteBoundsOk e = true := by
  intro fuel
  induction fuel with
  | zero =>
    intro cb idx st act res h
    simp only [droneLoop] at h
    split_ifs at h
    all_goals cases h
    all_goals intro e he
    all_goals cases he
  | succ f ih =>
    intro cb idx st act res h
    simp only [droneLoop] at h
    split_ifs at h
    case neg =>
      cases h
      intro e he
      cases he
    case pos =>
      obtain ⟨prime, hp, h⟩ := bind_ok_inv h
      obtain ⟨rootBase, hroot, h⟩ := bind_ok_inv h
      obtain ⟨q, hq, h⟩ := bind_ok_inv h
      obtain ⟨rest, hrest, h⟩ := bind_ok_inv h
      obtain ⟨hr1, hr2⟩ := hsc rootBase (pyIndex_mem hroot)
      cases h
      intro e he
      rcases List.mem_append.mp he with h1 | h1
      · rcases List.mem_append.mp h1 with h2 | h2
        · exact droneCCLoop_all_cc c track bt cb _ _ _ e h2
        · rw [emit_toList_mem h2]
          apply noteBoundsOk_note <;> simp only [hdv] <;> omega
      · exact ih _ _ _ _ rest hrest e h1

theorem logisticLoop_intensity_bounds (r T : ℚ) (hr0 : 0 ≤ r) (hr4 : r ≤ 4)
    (hT : T < 1) (n : ℕ) :
    ∀ (k : ℕ) (x : ℚ) (i : ℕ) (out : List (ℕ × ℚ × ℚ)),
      0 ≤ x → x ≤ 1 → logisticLoop r T n k x i = .ok out →
      ∀ ev ∈ out, 0 < ev.2.1 ∧ ev.2.1 ≤ 1 := by
  intro k
  induction k with
  | zero =>
    intro x i out _ _ h
    cases h
    intro ev hev
    cases hev
  | succ k ih =>
    intro x i out hx0 hx1 h
    simp only [logisticLoop] at h
    have hx'0 : 0 ≤ r * x * (1 - x) := by
      apply mul_nonneg (mul_nonneg hr0 hx0)
      linarith
    have hx'1 : r * x * (1 - x) ≤ 1 := by
      have h14 : x * (1 - x) ≤ 1/4 := by nlinarith [sq_nonneg (x - 1/2)]
      have h0m : 0 ≤ x * (1 - x) := mul_nonneg hx0 (by linarith)
      have hs4 : r * (x * (1 - x)) ≤ 4 * (1/4) := by
        calc r * (x * (1 - x)) ≤ 4 * (x * (1 - x)) := mul_le_mul_of_nonneg_right hr4 h0m
        _ ≤ 4 * (1/4) := by linarith
      calc r * x * (1 - x) = r * (x * (1 - x)) := by ring
      _ ≤ 4 * (1/4) := hs4
      _ = 1 := by norm_num
    split_ifs at h with hgt
    · obtain ⟨intensity, hint, h⟩ := bind_ok_inv h
      obtain ⟨rest, hrest, h⟩ := bind_ok_inv h
      cases h
      have h1T : (1 : ℚ) - T ≠ 0 := by
        intro hh
        linarith
      unfold pyDiv at hint
      rw [if_neg h1T] at hint
      injection hint with hint'
      intro ev hev
      rcases List.mem_cons.mp hev with h1 | h1
      · rw [h1]
        constructor
        · rw [← hint']
          exact div_pos (by linarith) (by linarith)
        · rw [← hint', div_le_one (by linarith)]
          linarith
      · exact ih _ _ rest hx'0 hx'1 hrest ev h1
    · exact ih _ _ out hx'0 hx'1 h

theorem addThunderRoll_bounds (track : ℕ) (beat intensity : ℚ)
    (h0 : 0 < intensity) (h1 : intensity ≤ 1) :
    ∀ e ∈ addThunderRoll track beat intensity, noteBoundsOk e = true := by
  intro e he
  unfold addThunderRoll at he
  rcases List.mem_append.mp he with h2 | h2
  · rcases List.mem_map.mp h2 with ⟨i, _, rfl⟩
    have hi30 : 0 ≤ intensity * 30 := by positivity
    have hi30' : intensity * 30 ≤ 30 := by nlinarith
    have hvb := pyTrunc_bounds 60 90
      (by linarith : (0 : ℚ) ≤ 60 + intensity * 30)
      (by push_cast; linarith) (by push_cast; linarith)
    apply noteBoundsOk_note <;> simp only [] <;> omega
  · fin_cases h2 <;> rfl

theorem addMetallicSwell_bounds (track : ℕ) (beat intensity : ℚ)
    (h0 : 0 < intensity) (h1 : intensity ≤ 1) :
    ∀ e ∈ addMetallicSwell track beat intensity, noteBoundsOk e = true := by
  intro e he
  unfold addMetallicSwell at he
  rcases List.mem_map.mp he with ⟨i, hi, rfl⟩
  have hilt : i < 12 := List.mem_range.mp hi
  have hi12 : ((i : ℚ)) / 12 ≤ 11 / 12 := by
    have : (i : ℚ) ≤ 11 := by exact_mod_cast Nat.lt_succ_iff.mp hilt
    linarith
  have hi0 : (0 : ℚ) ≤ (i : ℚ) / 12 := by positivity
  have hpr : ((i : ℚ) / 12) * intensity ≤ (11 / 12) * 1 :=
    mul_le_mul hi12 h1 (le_of_lt h0) (by norm_num)
  have hpr60 : ((i : ℚ) / 12) * intensity * 60 ≤ 55 := by nlinarith
  have hpr0 : 0 ≤ ((i : ℚ) / 12) * intensity * 60 := by positivity
  have hvb := pyTrunc_bounds 30 85
    (by linarith : (0 : ℚ) ≤ 30 + ((i : ℚ) / 12) * intensity * 60)
    (by push_cast; linarith) (by push_cast; linarith)
  have hmod : ((i % 5 : ℕ) : ℤ) < 5 := by
    have : i % 5 < 5 := Nat.mod_lt i (by omega)
    exact_mod_cast this
  have hmod0 : (0 : ℤ) ≤ ((i % 5 : ℕ) : ℤ) := by positivity
  apply noteBoundsOk_note <;> simp only [] <;> omega

theorem addShimmer_bounds (track : ℕ) (beat intensity : ℚ)
    (h0 : 0 < intensity) (h1 : intensity ≤ 1) :
    ∀ e ∈ addShimmer track beat intensity, noteBoundsOk e = true := by
  intro e he
  simp only [addShimmer] at he
  rcases List.mem_map.mp he with ⟨i, hi, rfl⟩
  have hilt : i < 4 := List.mem_range.mp hi
  have hi20 : 0 ≤ intensity * 20 := by positivity
  have hi20' : intensity * 20 ≤ 20 := by nlinarith
  have hvb := pyTrunc_bounds 35 55
    (by linarith : (0 : ℚ) ≤ 35 + intensity * 20)
    (by push_cast; linarith) (by push_cast; linarith)
  have hicast : ((i : ℤ)) ≤ 3 := by exact_mod_cast Nat.lt_succ_iff.mp hilt
  have hicast0 : (0 : ℤ) ≤ (i : ℤ) := by positivity
  apply noteBoundsOk_note <;> simp only [] <;> omega

theorem generateAmbientEvents_bounds (c : Composer) (track : ℕ) (duration chaosSeed : ℚ)
    (hr : c.logisticR = 193/50) (hT : c.eventsThreshold = 87/100)
    (hs0 : 0 ≤ chaosSeed) (hs1 : chaosSeed ≤ 1) :
    ∀ out, generateAmbientEvents c track duration chaosSeed = .ok out →
      ∀ e ∈ out, noteBoundsOk e = true := by
  intro out h
  simp only [generateAmbientEvents, logisticMapEvents] at h
  obtain ⟨events, hev, h⟩ := bind_ok_inv h
  cases h
  have hbounds := logisticLoop_intensity_bounds c.logisticR c.eventsThreshold
    (by rw [hr]; norm_num) (by rw [hr]; norm_num) (by rw [hT]; norm_num)
    c.eventsCount c.eventsCount chaosSeed 0 events hs0 hs1 hev
  intro e he
  rcases List.mem_flatMap.mp he with ⟨ev, hevmem, hein⟩
  obtain ⟨hI0, hI1⟩ := hbounds ev hevmem
  split_ifs at hein with h9 h7
  · exact addThunderRoll_bounds _ _ _ hI0 hI1 e hein
  · exact addMetallicSwell_bounds _ _ _ hI0 hI1 e hein
  · exact addShimmer_bounds _ _ _ hI0 hI1 e hein

/-- C1 (counterexample): nothing clamps pitches: with the custom scale
`[0]` (used verbatim) the drone root pitch is `0 - 24 = -24`, and the drone
generator writes a note with pitch `-24 ∉ [0,127]`. -/
theorem C1_counterexample :
    ((runEvents (generateDrones { defaultComposer with
        scale := buildScale "D_dorian" (some [0]) } 2 (1/58) [2] [] 2)).all
      noteBoundsOk) = false := by
  have h : runEvents (generateDrones { defaultComposer with
      scale := buildScale "D_dorian" (some [0]) } 2 (1/58) [2] [] 2) =
      [Event.cc ⟨2, 0, 74, 65⟩, Event.note ⟨2, -24, 0, 1, 50⟩] := by
    norm_num [generateDrones, droneLoop, droneCCLoop, droneBrightness, lorenzStep,
      pyTrunc, ratClip, pyCyc, pyIndex, pyDiv, pyMod, defaultComposer, buildScale,
      enforcePolyphonyLimit, pruneActive, runEvents, Except.bind, bind]
  rw [h]
  rfl

/-- C1 (amended): pitches and velocities are not clamped anywhere, but for
every configuration using a built-in scale (any modal-center tag), the
default per-layer velocity parameters (bases 45/55/50 and ranges 20/25),
the default logistic growth rate `3.86` and threshold `0.87`, and a chaos
seed in `[0,1]`, every note event emitted by a chapter-generation call has
pitch and velocity in `[0,127]` — for arbitrary primes, durations, rhythm,
motif, harmony-interval, polyphony, tempo and Lorenz settings.  (With
arbitrary custom scales or velocity parameters the bound fails, see the
counterexample.) -/
theorem C1_amended_note_bounds (c : Composer) (mode : String) (duration chaosSeed : ℚ)
    (primes : List ℤ) (rand : ℕ → ℚ) (fuel : ℕ)
    (hscale : c.scale = buildScale mode none)
    (hhbv : c.hbBaseVelocity = 45) (hhbr : c.hbPrimeModRange = 20)
    (hmv : c.melBaseVelocity = 55) (hmr : c.melPrimeModRange = 25)
    (hdv : c.droneVelocity = 50)
    (hr : c.logisticR = 193/50) (hT : c.eventsThreshold = 87/100)
    (hs0 : 0 ≤ chaosSeed) (hs1 : chaosSeed ≤ 1) :
    ∀ out, createChapterMidi c duration primes chaosSeed rand fuel = .ok out →
      ∀ e ∈ out, noteBoundsOk e = true := by
  have hsc : ∀ v ∈ c.scale, 62 ≤ v ∧ v ≤ 81 := by
    rw [hscale]
    exact buildScale_default_bounds mode
  intro out h
  unfold createChapterMidi at h
  obtain ⟨hb, hhb, h⟩ := bind_ok_inv h
  obtain ⟨mel, hmel, h⟩ := bind_ok_inv h
  obtain ⟨dr, hdr, h⟩ := bind_ok_inv h
  obtain ⟨amb, hamb, h⟩ := bind_ok_inv h
  cases h
  unfold generateHarmonicBed at hhb
  unfold generateMelodicTexture at hmel
  unfold generateDrones at hdr
  intro e he
  rcases List.mem_append.mp he with h1 | h1
  · rcases List.mem_append.mp h1 with h2 | h2
    · rcases List.mem_append.mp h2 with h3 | h3
      · exact harmonicBedLoop_bounds c 0 primes _ hsc hhbv hhbr fuel 0 0 hb hhb e h3
      · exact melodicLoop_bounds c 1 primes _ _ rand hsc hmv hmr fuel 0 0 [] 0 mel hmel e h3
    · exact droneLoop_bounds c 2 primes _ hsc hdv fuel 0 0 (1/10, 0, 0) mel.2.1 dr hdr e h2
  · exact generateAmbientEvents_bounds c 3 duration chaosSeed hr hT hs0 hs1 amb hamb e h1

/-- A Composer with default velocity/chaos parameters but a single-note
harmony interval set, an empty motif pattern and one logistic iteration,
for a cheap concrete full-chapter run. -/
def tinyComposer : Composer :=
  { defaultComposer with eventsCount := 1, motifPattern := [], harmonyIntervals := [0] }

set_option maxHeartbeats 1000000 in
/-- C1 witness: a concrete small chapter (duration 1/58 minute, primes
`[2]`, seed `1/2`) — all of its emitted notes are in bounds, and the event
list has 15 events (1 harmonic + 2 drone + 12 ambient). -/
theorem C1_amended_note_bounds_witness :
    ((chapterEvents (createChapterMidi tinyComposer (1/58) [2] (1/2)
        (fun _ => 1/2) 2)).all noteBoundsOk) = true ∧
    (chapterEvents (createChapterMidi tinyComposer (1/58) [2] (1/2)
        (fun _ => 1/2) 2)).length = 15 := by
  constructor
  · rw [List.all_eq_true]
    intro e he
    have h := C1_amended_note_bounds tinyComposer "D_dorian" (1/58) (1/2) [2]
      (fun _ => 1/2) 2 rfl rfl rfl rfl rfl rfl rfl rfl (by norm_num) (by norm_num)
    cases hres : createChapterMidi tinyComposer (1/58) [2] (1/2) (fun _ => 1/2) 2 with
    | error err =>
      rw [hres] at he
      cases he
    | ok evs =>
      rw [hres] at he
      exact h evs hres e he
  · norm_num [createChapterMidi, generateHarmonicBed, harmonicBedLoop, buildChord,
      buildChordNotes, generateMelodicTexture, melodicLoop, melodicInnerLoop,
      fibonacciSequence, fibFrom, generateDrones, droneLoop, droneCCLoop,
      droneBrightness, lorenzStep, generateAmbientEvents, logisticMapEvents,
      logisticLoop, addMetallicSwell, addThunderRoll, addShimmer, pyTrunc, ratClip,
      pyCyc, pyIndex, pyDiv, pyMod, pyModIdx, tinyComposer, defaultComposer,
      buildScale, enforcePolyphonyLimit, pruneActive, chapterEvents,
      Except.bind, bind, pure, Except.pure, Int.fmod_eq_emod, List.range_succ]

end Yourdio
